import Mathlib

/-!
# Edit history of the document editor

A shallow embedding of the undo/redo bookkeeping of `src/document-editor.js`
(the closure variables `undoStack`, `redoStack`, `lastContent` together with the
live markup `editor.innerHTML`) and of the three functions that touch them:
`saveState` (lines 57-68), `undo` (lines 922-934) and `redo` (lines 937-949).

JavaScript arrays are embedded as lists read in index order: index 0 is the
head of the list, `push` appends at the end, `pop` removes the last element and
`shift` removes the head.  Snapshots are strings that the code only ever copies
and compares with `!==`.

Assigning `editor.innerHTML = markup` makes the browser parse the markup, and
what `editor.innerHTML` reads afterwards is the serialisation of the parsed
tree, which can differ from the assigned string.  This behaviour of the browser
is the parameter `reserialise : String → String` of every definition that
assigns the live content; nothing is assumed about it.

Around the history, the file embeds the debounced `autosave` timer (lines
85-119) over a logical clock and the browser's table of timeouts, the two handlers that write to `localStorage`
(lines 90-113 and 777-817), the construction of a table by `insertTable` (lines
593-636) and the counters of `updateCounts` (lines 405-415).
-/

namespace DocumentEditor

/-- The mutable session state created by the `DOMContentLoaded` handler: the live
markup of the editable region and the three history variables of lines 49-51. -/
structure EditorState where
  /-- Live content, `editor.innerHTML`. -/
  innerHTML : String
  /-- The array `undoStack`, oldest entry first. -/
  undoStack : List String
  /-- The array `redoStack`, oldest entry first. -/
  redoStack : List String
  /-- The variable `lastContent`. -/
  lastContent : String
deriving DecidableEq, Repr

/-- The placeholder markup of line 42. -/
def defaultContent : String := "<p>Start typing your document here...</p>"

/-- JavaScript `Array.prototype.push`: append at the end. -/
def push (xs : List String) (x : String) : List String := xs ++ [x]

/-- JavaScript `Array.prototype.shift`: remove the element at index 0. -/
def shift (xs : List String) : List String := xs.tail

/-- Lines 37-51: the stored value is `null` (here `none`) or a string; the test
`if (autosavedContent)` is JavaScript truthiness, false for `null` and for the
empty string.  The chosen markup is assigned to `editor.innerHTML` (lines 40 and
42); both stacks start empty and `lastContent` is read back from the editor
(line 51), so it is the re-serialisation of the assigned markup. -/
def initialise (reserialise : String → String) (autosavedContent : Option String) :
    EditorState :=
  let assigned :=
    match autosavedContent with
    | some c => if c ≠ "" then c else defaultContent
    | none => defaultContent
  let innerHTML := reserialise assigned
  { innerHTML := innerHTML, undoStack := [], redoStack := [], lastContent := innerHTML }

/-- Lines 57-68, `saveState`. -/
def saveState (s : EditorState) : EditorState :=
  if s.innerHTML ≠ s.lastContent then
    let undoStack := push s.undoStack s.lastContent
    let lastContent := s.innerHTML
    let redoStack : List String := []
    if undoStack.length > 50 then
      { innerHTML := s.innerHTML, undoStack := shift undoStack,
        redoStack := redoStack, lastContent := lastContent }
    else
      { innerHTML := s.innerHTML, undoStack := undoStack,
        redoStack := redoStack, lastContent := lastContent }
  else s

/-- Lines 922-934, `undo`.  Inside the guard the array is non-empty, so `pop`
returns its last element and removes it.  Line 929 assigns the popped entry to
`editor.innerHTML`, after which the live content reads as its re-serialisation;
line 930 stores the popped entry itself in `lastContent`. -/
def undo (reserialise : String → String) (s : EditorState) : EditorState :=
  if h : s.undoStack.length > 0 then
    let redoStack := push s.redoStack s.innerHTML
    let previousState := s.undoStack.getLast (List.ne_nil_of_length_pos h)
    { innerHTML := reserialise previousState, undoStack := s.undoStack.dropLast,
      redoStack := redoStack, lastContent := previousState }
  else s

/-- Lines 937-949, `redo`.  Line 944 assigns the popped entry to
`editor.innerHTML`, line 945 stores it in `lastContent`. -/
def redo (reserialise : String → String) (s : EditorState) : EditorState :=
  if h : s.redoStack.length > 0 then
    let undoStack := push s.undoStack s.innerHTML
    let nextState := s.redoStack.getLast (List.ne_nil_of_length_pos h)
    { innerHTML := reserialise nextState, undoStack := undoStack,
      redoStack := s.redoStack.dropLast, lastContent := nextState }
  else s

/-- A live edit: the user (or a toolbar command) changes the content of the
editable region, and `editor.innerHTML` then reads `content`; no history
variable is touched. -/
def edit (s : EditorState) (content : String) : EditorState :=
  { s with innerHTML := content }

/-- The events that read or write the session state. -/
inductive Op where
  | edit (content : String)
  | capture
  | undo
  | redo
deriving DecidableEq, Repr

/-- One event applied to the session state. -/
def step (reserialise : String → String) (s : EditorState) : Op → EditorState
  | Op.edit content => edit s content
  | Op.capture => saveState s
  | Op.undo => undo reserialise s
  | Op.redo => redo reserialise s

/-- A sequence of events, applied left to right. -/
def run (reserialise : String → String) (s : EditorState) (ops : List Op) :
    EditorState :=
  ops.foldl (step reserialise) s

/-- The live content becomes `cur` and `saveState` runs: the spec's
`capture(currentSnapshot)`. -/
def capture (s : EditorState) (cur : String) : EditorState := saveState (edit s cur)

/-- Capture each snapshot of a list in turn. -/
def captureAll (s : EditorState) (snapshots : List String) : EditorState :=
  snapshots.foldl capture s

/-- A session holding `s0` with both stacks empty and nothing uncaptured. -/
def fresh (s0 : String) : EditorState :=
  { innerHTML := s0, undoStack := [], redoStack := [], lastContent := s0 }

/-- The spec's `setSnapshot` of the editor surface: the snapshot is handed to the
live surface, which from then on reads as its re-serialisation. -/
def setSnapshot (reserialise : String → String) (s : EditorState) (snapshot : String) :
    EditorState :=
  { s with innerHTML := reserialise snapshot }

/-- Reference definition of `undo`, following the spec's words: a no-op on an
empty undo stack; otherwise the live snapshot goes on top of the redo stack, the
most recent undo entry is removed and recorded as last snapshot, and it is the
snapshot that is restored into the live surface. -/
def undoRef (reserialise : String → String) (s : EditorState) : EditorState :=
  match s.undoStack.reverse with
  | [] => s
  | top :: older =>
    setSnapshot reserialise
      { innerHTML := s.innerHTML, undoStack := older.reverse,
        redoStack := s.redoStack ++ [s.innerHTML], lastContent := top }
      top

/-- Reference definition of `redo`, following the spec's words: a no-op on an
empty redo stack; otherwise the most recent redo entry is removed, the live
snapshot goes on top of the undo stack, the removed entry is recorded as last
snapshot, and it is the snapshot that is restored into the live surface. -/
def redoRef (reserialise : String → String) (s : EditorState) : EditorState :=
  match s.redoStack.reverse with
  | [] => s
  | top :: older =>
    setSnapshot reserialise
      { innerHTML := s.innerHTML, undoStack := s.undoStack ++ [s.innerHTML],
        redoStack := older.reverse, lastContent := top }
      top

/-- Sample input: the first `n` snapshots of a user typing one character at a
time into an empty document; the `k`-th snapshot has `k` characters. -/
def typedSnapshots : Nat → List String
  | 0 => []
  | n + 1 => typedSnapshots n ++ [String.mk (List.replicate (n + 1) 'x')]

/-- Sample markup: a table inside a paragraph, as `insertTable` leaves it when
the caret is inside a paragraph (line 648 inserts the element at the caret). -/
def tableInParagraph : String :=
  "<p>a<table><tbody><tr><td>Cell</td></tr></tbody></table>b</p>"

/-- Sample markup: what the editor reads back after `tableInParagraph` is
assigned to it. -/
def tableAfterParagraph : String :=
  "<p>a</p><table><tbody><tr><td>Cell</td></tr></tbody></table>b<p></p>"

/-- Sample browser behaviour on the markups used in the examples below: the HTML
parser closes an open paragraph at a table start tag and turns the stray
paragraph end tag into an empty paragraph, so `tableInParagraph` reads back as
`tableAfterParagraph`; the other sample markups are well formed and read back
unchanged. -/
def sampleReserialise (markup : String) : String :=
  if markup = tableInParagraph then tableAfterParagraph else markup

/-- The linear history of a session, oldest first: the undo entries, then the
last recorded snapshot, then the redo entries from the top of `redoStack` down. -/
def timeline (s : EditorState) : List String :=
  s.undoStack ++ [s.lastContent] ++ s.redoStack.reverse

/-! ### The autosave timer

Times are in milliseconds since an arbitrary origin.  The browser keeps a table
of the timeouts that were armed with `setTimeout` and have neither run nor been
cleared; each has the id that `setTimeout` returned and a due time.  A timeout
runs at its due time, and one that is due no later than an event runs before
that event is handled. -/

/-- The delay passed to `setTimeout` by `autosave` (line 113). -/
def autosaveDelay : Nat := 5000

/-- One entry of the browser's table of timeouts. -/
structure Timeout where
  /-- The id returned by `setTimeout`. -/
  id : Nat
  /-- The time at which the callback is due. -/
  due : Nat
deriving DecidableEq, Repr

/-- The browser's timeouts armed by `autosave`, the variable that remembers the
last one, and the record of what the callback did. -/
structure AutosaveState where
  /-- The timeouts that were armed and have neither run nor been cleared, in the
  order of arming. -/
  timers : List Timeout
  /-- The id that the next `setTimeout` call returns; ids are positive and are
  not reused. -/
  nextId : Nat
  /-- The variable `autosaveTimer` (line 53): `none` for `null`, otherwise the id
  returned by the last `setTimeout` call of `autosave`. -/
  autosaveTimer : Option Nat
  /-- Times at which the timer callback called `localStorage.setItem`, oldest
  first. -/
  written : List Nat
deriving DecidableEq, Repr

/-- The state when the handler of `DOMContentLoaded` reaches line 53: no timeout
is armed and `autosaveTimer` is `null`. -/
def pageLoaded : AutosaveState :=
  { timers := [], nextId := 1, autosaveTimer := none, written := [] }

/-- The browser's `clearTimeout(id)`: the timeout with that id leaves the table;
nothing happens when there is none. -/
def clearTimeout (id : Nat) (st : AutosaveState) : AutosaveState :=
  { st with timers := st.timers.filter (fun t => t.id ≠ id) }

/-- The browser's `setTimeout(callback, delay)` called at a time that makes the
callback due at `due`: a new timeout enters the table and its id is returned. -/
def setTimeout (due : Nat) (st : AutosaveState) : AutosaveState × Nat :=
  ({ st with timers := st.timers ++ [{ id := st.nextId, due := due }],
             nextId := st.nextId + 1 }, st.nextId)

/-- Lines 85-114, `autosave`, called at time `now`: when `autosaveTimer` is truthy
(an id other than 0) that timeout is cleared; then a new timeout is armed to run
`autosaveDelay` later and its id is kept in `autosaveTimer`. -/
def autosave (now : Nat) (st : AutosaveState) : AutosaveState :=
  let st1 :=
    match st.autosaveTimer with
    | some id => if id ≠ 0 then clearTimeout id st else st
    | none => st
  let armed := setTimeout (now + autosaveDelay) st1
  { armed.1 with autosaveTimer := some armed.2 }

/-- The event loop reaching time `now`: every timeout due by then runs, the
earliest first, and leaves the table. The callback of lines 90-113 writes the
live content to storage; the write is recorded at the due time. -/
def runTimers (now : Nat) (st : AutosaveState) : AutosaveState :=
  { st with
    timers := st.timers.filter (fun t => ¬ t.due ≤ now),
    written := st.written ++
      ((st.timers.filter (fun t => t.due ≤ now)).map Timeout.due).insertionSort (· ≤ ·) }

/-- An `input` event on the editor at time `now` (line 117): the listener is
`autosave`. -/
def inputEvent (now : Nat) (st : AutosaveState) : AutosaveState :=
  autosave now (runTimers now st)

/-- No further event arrives: every timeout still in the table runs, the
earliest first. -/
def silence (st : AutosaveState) : AutosaveState :=
  { st with
    timers := [],
    written := st.written ++ (st.timers.map Timeout.due).insertionSort (· ≤ ·) }

/-- The state once the page has loaded at time `load`, where line 119 calls
`autosave()` once, and the `input` events have arrived at the given times. -/
def afterEvents (load : Nat) (events : List Nat) : AutosaveState :=
  events.foldl (fun st t => inputEvent t st) (autosave load pageLoaded)

/-- A whole session: page load, the `input` events, then silence. -/
def autosaveSession (load : Nat) (events : List Nat) : AutosaveState :=
  silence (afterEvents load events)

/-! ### Persistence and notifications -/

/-- What the persistence handlers read and write: the editing session, the
`localStorage` item, and the traces the handlers leave for the user. -/
structure Page where
  /-- The live content and the history variables. -/
  session : EditorState
  /-- Value stored under the key `autosavedContent`, `none` when absent. -/
  storage : Option String
  /-- Text of the element `#autosave-indicator`, `none` while it does not exist. -/
  indicator : Option String
  /-- First argument of every `console.error` call, oldest first. -/
  consoleErrors : List String
  /-- Message and type of every `showNotification` call, oldest first. -/
  notifications : List (String × String)
  /-- Contents handed to the browser as a download, oldest first. -/
  downloads : List String
deriving DecidableEq, Repr

/-- The call `localStorage.setItem('autosavedContent', value)`. It throws, and
stores nothing, when the browser refuses the write (`quotaExceeded`). -/
def setItem (quotaExceeded : Bool) (p : Page) (value : String) : Except String Page :=
  if quotaExceeded then Except.error "QuotaExceededError"
  else Except.ok { p with storage := some value }

/-- Lines 8-35, `showNotification`: a notification element with the message is
shown, coloured by type. -/
def showNotification (p : Page) (message type : String) : Page :=
  { p with notifications := p.notifications ++ [(message, type)] }

/-- The callback armed by `autosave` (lines 90-113). `time` is the text of
`new Date().toLocaleTimeString()`. The result is `Except.ok` when the callback
returns normally. -/
def autosaveCallback (quotaExceeded : Bool) (time : String) (p : Page) :
    Except String Page :=
  match setItem quotaExceeded p p.session.innerHTML with
  | Except.ok p1 => Except.ok { p1 with indicator := some ("Autosaved at " ++ time) }
  | Except.error _ =>
    Except.ok { p with consoleErrors := p.consoleErrors ++ ["Error autosaving content:"] }

/-- The click handler of `#save-doc` (lines 777-817): the content is offered as
a download, then written to storage. -/
def saveDocClick (quotaExceeded : Bool) (time : String) (p : Page) :
    Except String Page :=
  let content := p.session.innerHTML
  let p1 := { p with downloads := p.downloads ++ [content] }
  match setItem quotaExceeded p1 content with
  | Except.ok p2 =>
    Except.ok (showNotification
      { p2 with indicator := some ("Document saved at " ++ time) }
      "Document saved successfully" "success")
  | Except.error _ =>
    Except.ok (showNotification
      { p1 with consoleErrors := p1.consoleErrors ++ ["Error saving document:"] }
      "Error saving document" "error")

/-! ### Tables -/

/-- The `table` element built by `insertTable`, reduced to the texts of its
cells. -/
structure Table where
  /-- The row of `th` texts inside `thead`; `none` when there is no `thead`. -/
  thead : Option (List String)
  /-- The rows of `tbody`, each the list of its `td` texts. -/
  tbody : List (List String)
deriving DecidableEq, Repr

/-- All rows of a table in document order. -/
def Table.allRows (t : Table) : List (List String) := t.thead.toList ++ t.tbody

/-- Lines 593-636 of `insertTable`, the construction of the element. The
arguments come from `parseInt`; a loop `for (let i = 0; i < n; i++)` runs
`n.toNat` times. -/
def insertTable (rows cols : Int) (includeHeader : Bool) : Table :=
  if includeHeader then
    let headerRow := (List.range cols.toNat).map (fun i => "Header " ++ toString (i + 1))
    let tbody := (List.range (rows - 1).toNat).map
      (fun _ => (List.range cols.toNat).map (fun _ => "Cell"))
    { thead := some headerRow, tbody := tbody }
  else
    let tbody := (List.range rows.toNat).map
      (fun _ => (List.range cols.toNat).map (fun _ => "Cell"))
    { thead := none, tbody := tbody }

/-- The click handler of `#insert-table-btn` (lines 575-591): `parseInt` gives
an integer or `NaN` (here `none`), and the table is built only when both numbers
are positive. -/
def insertTableBtnClick (rows cols : Option Int) (includeHeader : Bool) : Option Table :=
  match rows, cols with
  | some r, some c => if r > 0 ∧ c > 0 then some (insertTable r c includeHeader) else none
  | _, _ => none

/-! ### Word and character counts

A JavaScript string is a sequence of UTF-16 code units, embedded as a list of
their numeric values; `length` counts code units. -/

/-- The code units matched by `\s` in a regular expression and removed by
`String.prototype.trim`: the ECMAScript white space and line terminator code
points. -/
def isWhiteSpace (c : Nat) : Bool :=
  c = 9 || c = 10 || c = 11 || c = 12 || c = 13 || c = 32 || c = 160 || c = 5760 ||
  (8192 ≤ c && c ≤ 8202) || c = 8232 || c = 8233 || c = 8239 || c = 8287 ||
  c = 12288 || c = 65279

/-- JavaScript `String.prototype.trim`: white space is removed from both ends. -/
def trim (text : List Nat) : List Nat :=
  (text.dropWhile isWhiteSpace).rdropWhile isWhiteSpace

/-- Whether a string begins with a white space code unit. -/
def startsWithSpace : List Nat → Bool
  | [] => false
  | c :: _ => isWhiteSpace c

/-- Put a code unit in front of the first piece of a split. -/
def consToFirst (c : Nat) : List (List Nat) → List (List Nat)
  | piece :: pieces => (c :: piece) :: pieces
  | [] => [[c]]

/-- JavaScript `text.split(/\s+/)`: the pieces between the maximal runs of
white space, an empty piece standing before a leading run and after a trailing
one; the empty string gives one empty piece. -/
def splitWhiteSpace : List Nat → List (List Nat)
  | [] => [[]]
  | c :: cs =>
    if isWhiteSpace c then
      if startsWithSpace cs then splitWhiteSpace cs else [] :: splitWhiteSpace cs
    else consToFirst c (splitWhiteSpace cs)

/-- What `updateCounts` computes and shows in the status bar. -/
structure Counts where
  /-- The constant `words`. -/
  words : Nat
  /-- The constant `chars`. -/
  chars : Nat
  /-- The text given to `wordCount.textContent`. -/
  wordCountText : String
  /-- The text given to `charCount.textContent`. -/
  charCountText : String
deriving DecidableEq, Repr

/-- Lines 405-415, `updateCounts`, as a function of `editor.innerText`. -/
def updateCounts (innerText : List Nat) : Counts :=
  let text := if innerText = [] then [] else innerText
  let words := if trim text = [] then 0 else (splitWhiteSpace (trim text)).length
  let chars := text.length
  { words := words, chars := chars,
    wordCountText := "Words: " ++ toString words,
    charCountText := "Characters: " ++ toString chars }

/-- Number of maximal runs of non-white-space code units in a list that is
preceded by white space or by the start of the text (`afterSpace`) or by a
non-white-space code unit: a run is counted where it starts. -/
def countRuns (afterSpace : Bool) : List Nat → Nat
  | [] => 0
  | c :: cs =>
    if isWhiteSpace c then countRuns true cs
    else (if afterSpace then 1 else 0) + countRuns false cs

/-- Reference count, following the claim's words: the number of maximal runs of
non-white-space code units in the text. -/
def nonWhiteSpaceRuns (text : List Nat) : Nat := countRuns true text

/-- Sample input: the code units of a string of characters below U+10000. -/
def codeUnits (s : String) : List Nat := s.toList.map Char.toNat

/-! ## Helper lemmas -/

theorem undo_nil (r : String → String) (e : String) (R : List String) (L : String) :
    undo r ⟨e, [], R, L⟩ = ⟨e, [], R, L⟩ := by
  simp [undo]

theorem undo_snoc (r : String → String) (e : String) (U : List String) (p : String)
    (R : List String) (L : String) :
    undo r ⟨e, U ++ [p], R, L⟩ = ⟨r p, U, R ++ [e], p⟩ := by
  simp [undo, push]

theorem redo_nil (r : String → String) (e : String) (U : List String) (L : String) :
    redo r ⟨e, U, [], L⟩ = ⟨e, U, [], L⟩ := by
  simp [redo]

theorem redo_snoc (r : String → String) (e : String) (U R : List String) (q : String)
    (L : String) : redo r ⟨e, U, R ++ [q], L⟩ = ⟨r q, U ++ [e], R, q⟩ := by
  simp [redo, push]

theorem saveState_same (s : EditorState) (h : s.innerHTML = s.lastContent) :
    saveState s = s := by
  simp [saveState, h]

theorem saveState_changed_le (s : EditorState) (h : s.innerHTML ≠ s.lastContent)
    (hlen : s.undoStack.length < 50) :
    saveState s = ⟨s.innerHTML, s.undoStack ++ [s.lastContent], [], s.innerHTML⟩ := by
  have : ¬ (50 < s.undoStack.length + 1) := by omega
  simp [saveState, h, push, this]

theorem saveState_changed_gt (s : EditorState) (h : s.innerHTML ≠ s.lastContent)
    (hlen : 50 ≤ s.undoStack.length) :
    saveState s =
      ⟨s.innerHTML, (s.undoStack ++ [s.lastContent]).tail, [], s.innerHTML⟩ := by
  have : 50 < s.undoStack.length + 1 := by omega
  simp [saveState, h, push, shift, this]

theorem saveState_undoStack_length_le (s : EditorState) (h : s.undoStack.length ≤ 50) :
    (saveState s).undoStack.length ≤ 50 := by
  by_cases hc : s.innerHTML = s.lastContent
  · rw [saveState_same s hc]; exact h
  · by_cases hlt : s.undoStack.length < 50
    · rw [saveState_changed_le s hc hlt]; simp; omega
    · rw [saveState_changed_gt s hc (by omega)]; simp; omega

theorem saveState_innerHTML (s : EditorState) : (saveState s).innerHTML = s.innerHTML := by
  by_cases hc : s.innerHTML = s.lastContent
  · rw [saveState_same s hc]
  · by_cases hlt : s.undoStack.length < 50
    · rw [saveState_changed_le s hc hlt]
    · rw [saveState_changed_gt s hc (by omega)]

theorem saveState_lastContent (s : EditorState) :
    (saveState s).lastContent = s.innerHTML := by
  by_cases hc : s.innerHTML = s.lastContent
  · rw [saveState_same s hc, hc]
  · by_cases hlt : s.undoStack.length < 50
    · rw [saveState_changed_le s hc hlt]
    · rw [saveState_changed_gt s hc (by omega)]

theorem saveState_redoStack_of_ne (s : EditorState) (h : s.innerHTML ≠ s.lastContent) :
    (saveState s).redoStack = [] := by
  by_cases hlt : s.undoStack.length < 50
  · rw [saveState_changed_le s h hlt]
  · rw [saveState_changed_gt s h (by omega)]

/-- The combined size of the two stacks: `saveState` brings it to at most 50,
`undo` and `redo` move one entry from one stack to the other. -/
theorem step_total_le (r : String → String) (s : EditorState) (op : Op)
    (h : s.undoStack.length + s.redoStack.length ≤ 50) :
    (step r s op).undoStack.length + (step r s op).redoStack.length ≤ 50 := by
  obtain ⟨e, U, R, L⟩ := s
  cases op with
  | edit content => exact h
  | capture =>
    show (saveState _).undoStack.length + (saveState _).redoStack.length ≤ 50
    by_cases hc : e = L
    · rw [saveState_same _ hc]; exact h
    · have h1 := saveState_undoStack_length_le ⟨e, U, R, L⟩ (by simp at h ⊢; omega)
      rw [saveState_redoStack_of_ne _ hc]
      simpa using h1
  | undo =>
    show (undo r _).undoStack.length + (undo r _).redoStack.length ≤ 50
    rcases List.eq_nil_or_concat U with rfl | ⟨U, p, rfl⟩
    · rw [undo_nil]; exact h
    · rw [List.concat_eq_append] at h ⊢
      rw [undo_snoc]
      simp at h ⊢; omega
  | redo =>
    show (redo r _).undoStack.length + (redo r _).redoStack.length ≤ 50
    rcases List.eq_nil_or_concat R with rfl | ⟨R, q, rfl⟩
    · rw [redo_nil]; exact h
    · rw [List.concat_eq_append] at h ⊢
      rw [redo_snoc]
      simp at h ⊢; omega

theorem run_total_le (r : String → String) (s : EditorState) (ops : List Op)
    (h : s.undoStack.length + s.redoStack.length ≤ 50) :
    (run r s ops).undoStack.length + (run r s ops).redoStack.length ≤ 50 := by
  induction ops generalizing s with
  | nil => exact h
  | cons op ops ih => exact ih (step r s op) (step_total_le r s op h)

theorem drop_keep_append (A X : List String) (n : Nat) :
    ((A.drop (A.length - n)) ++ X).drop (((A.drop (A.length - n)) ++ X).length - n)
      = (A ++ X).drop ((A ++ X).length - n) := by
  have hd : A.length - n ≤ A.length := Nat.sub_le _ _
  rw [← List.drop_append_of_le_length hd, List.drop_drop]
  congr 1
  simp only [List.length_drop, List.length_append]
  omega

/-- One capture of a snapshot that differs from the captured live content. -/
theorem capture_of_ne (a c : String) (U R : List String) (h : a ≠ c)
    (hU : U.length ≤ 50) :
    capture ⟨a, U, R, a⟩ c =
      ⟨c, (U ++ [a]).drop ((U ++ [a]).length - 50), [], c⟩ := by
  have hc : (edit ⟨a, U, R, a⟩ c).innerHTML ≠ (edit ⟨a, U, R, a⟩ c).lastContent :=
    fun e => h e.symm
  by_cases hlt : U.length < 50
  · have h0 : (U ++ [a]).length - 50 = 0 := by simp; omega
    rw [h0, List.drop_zero]
    exact saveState_changed_le _ hc hlt
  · have h1 : (U ++ [a]).length - 50 = 1 := by simp; omega
    rw [h1, List.drop_one]
    exact saveState_changed_gt _ hc (by simp [edit]; omega)

/-- Capturing a run of snapshots, each different from its predecessor, starting
from a state with nothing uncaptured: the history is the old undo stack followed
by all but the last of the contents seen, cut to its 50 newest entries. -/
theorem captureAll_chain (cs : List String) :
    ∀ (a : String) (U R : List String), U.length ≤ 50 → List.Chain (· ≠ ·) a cs →
      captureAll ⟨a, U, R, a⟩ cs =
        ⟨(a :: cs).getLast (List.cons_ne_nil a cs),
         (U ++ (a :: cs).dropLast).drop ((U ++ (a :: cs).dropLast).length - 50),
         if cs = [] then R else [],
         (a :: cs).getLast (List.cons_ne_nil a cs)⟩ := by
  induction cs with
  | nil =>
    intro a U R hU _
    have h0 : U.length - 50 = 0 := by omega
    simp [captureAll, h0]
  | cons c cs ih =>
    intro a U R hU hch
    rw [List.chain_cons] at hch
    have hstep : captureAll ⟨a, U, R, a⟩ (c :: cs) =
        captureAll (capture ⟨a, U, R, a⟩ c) cs := rfl
    rw [hstep, capture_of_ne a c U R hch.1 hU,
      ih c _ [] (by simp only [List.length_drop]; omega) hch.2]
    have hk := drop_keep_append (U ++ [a]) (c :: cs).dropLast 50
    have hd : (a :: c :: cs).dropLast = a :: (c :: cs).dropLast := rfl
    rw [hk, hd]
    simp

theorem saveState_undoStack_length_le_succ (s : EditorState) :
    (saveState s).undoStack.length ≤ s.undoStack.length + 1 := by
  by_cases hc : s.innerHTML = s.lastContent
  · rw [saveState_same s hc]; omega
  · by_cases hlt : s.undoStack.length < 50
    · rw [saveState_changed_le s hc hlt]; simp
    · rw [saveState_changed_gt s hc (by omega)]; simp

theorem destutter_aux_length_le (a : String) (cs : List String) :
    (List.destutter' (· ≠ ·) a cs).length ≤ (List.destutter (· ≠ ·) cs).length + 1 := by
  cases cs with
  | nil => simp
  | cons c cs =>
    rw [List.destutter'_cons]
    by_cases h : a ≠ c
    · simp [h, List.destutter]
    · simp only [h, if_false]
      have hac : a = c := not_not.mp h
      rw [hac]
      simp [List.destutter]

/-- A run of captures adds at most one undo entry each time the captured
snapshot differs from the one recorded just before it. -/
theorem captureAll_length_aux (cs : List String) :
    ∀ s : EditorState,
      (captureAll s cs).undoStack.length + 1
        ≤ s.undoStack.length + (List.destutter' (· ≠ ·) s.lastContent cs).length := by
  induction cs with
  | nil => intro s; simp [captureAll]
  | cons c cs ih =>
    intro s
    have hstep : captureAll s (c :: cs) = captureAll (capture s c) cs := rfl
    have hlast : (capture s c).lastContent = c := saveState_lastContent (edit s c)
    have hih := ih (capture s c)
    rw [hstep, List.destutter'_cons]
    rw [hlast] at hih
    by_cases h : s.lastContent ≠ c
    · rw [if_pos h, List.length_cons]
      have hlen : (capture s c).undoStack.length ≤ s.undoStack.length + 1 :=
        saveState_undoStack_length_le_succ (edit s c)
      omega
    · rw [if_neg h]
      have hLc : s.lastContent = c := not_not.mp h
      have hsame : capture s c = edit s c := saveState_same (edit s c) hLc.symm
      rw [hsame] at hih ⊢
      rw [hLc]
      exact hih

/-- Successive undos pop the undo stack from its end: after as many undos as
there are entries in `b :: B`, the live content is the re-serialisation of `b`
and the contents passed on the way lie on the redo stack, the first one passed
at the bottom. -/
theorem undo_iterate_append (r : String → String) (B : List String) :
    ∀ (A : List String) (b e : String) (R : List String) (L : String),
      (undo r)^[(b :: B).length] ⟨e, A ++ b :: B, R, L⟩
        = ⟨r b, A, R ++ [e] ++ (B.map r).reverse, b⟩ := by
  induction B using List.reverseRecOn with
  | nil =>
    intro A b e R L
    simp only [List.length_singleton, Function.iterate_one, List.map_nil,
      List.reverse_nil, List.append_nil]
    exact undo_snoc r e A b R L
  | append_singleton B x ih =>
    intro A b e R L
    have hlen : (b :: (B ++ [x])).length = (b :: B).length + 1 := by simp
    have hU : A ++ b :: (B ++ [x]) = (A ++ b :: B) ++ [x] := by simp
    rw [hlen, Function.iterate_succ_apply, hU, undo_snoc, ih]
    simp

/-- The state after capturing at most 50 snapshots, each different from its
predecessor, in a fresh session. -/
theorem captureAll_fresh_small (s0 : String) (ss : List String)
    (hchain : List.Chain (· ≠ ·) s0 ss) (hn : ss.length ≤ 50) :
    captureAll (fresh s0) ss =
      ⟨(s0 :: ss).getLast (List.cons_ne_nil s0 ss), (s0 :: ss).dropLast, [],
       (s0 :: ss).getLast (List.cons_ne_nil s0 ss)⟩ := by
  have hrun := captureAll_chain ss s0 [] [] (by simp) hchain
  have h0 : ss.length - 50 = 0 := by omega
  show captureAll ⟨s0, [], [], s0⟩ ss = _
  rw [hrun]
  simp [h0]

theorem undo_of_nil (r : String → String) (s : EditorState) (h : s.undoStack = []) :
    undo r s = s := by
  obtain ⟨e, U, R, L⟩ := s
  simp only at h
  subst h
  exact undo_nil r e R L

/-- Undoing every capture of a short history empties the undo stack. -/
theorem undo_all_undoStack (r : String → String) (s0 : String) (ss : List String)
    (hchain : List.Chain (· ≠ ·) s0 ss) (hn : ss.length ≤ 50) :
    ((undo r)^[ss.length] (captureAll (fresh s0) ss)).undoStack = [] := by
  rw [captureAll_fresh_small s0 ss hchain hn]
  rcases List.eq_nil_or_concat ss with rfl | ⟨ss, x, rfl⟩
  · simp
  · rw [List.concat_eq_append]
    have hlast : (s0 :: (ss ++ [x])).getLast (List.cons_ne_nil _ _) = x := by simp
    have hdrop : (s0 :: (ss ++ [x])).dropLast = [] ++ s0 :: ss := by
      rw [← List.cons_append, List.dropLast_concat, List.nil_append]
    have hlen : (ss ++ [x]).length = (s0 :: ss).length := by simp
    rw [hlast, hdrop, hlen, undo_iterate_append]

/-- Undoing every capture of a short history whose snapshots all re-serialise
to themselves brings back the initial content and leaves the captured snapshots
on the redo stack, the first one on top. -/
theorem undo_all_fresh_small (r : String → String) (s0 : String) (ss : List String)
    (hchain : List.Chain (· ≠ ·) s0 ss) (hn : ss.length ≤ 50)
    (hrt : ∀ x ∈ s0 :: ss, r x = x) :
    (undo r)^[ss.length] (captureAll (fresh s0) ss) = ⟨s0, [], ss.reverse, s0⟩ := by
  rw [captureAll_fresh_small s0 ss hchain hn]
  rcases List.eq_nil_or_concat ss with rfl | ⟨ss, x, rfl⟩
  · simp
  · rw [List.concat_eq_append] at hrt ⊢
    have hlast : (s0 :: (ss ++ [x])).getLast (List.cons_ne_nil _ _) = x := by simp
    have hdrop : (s0 :: (ss ++ [x])).dropLast = [] ++ s0 :: ss := by
      rw [← List.cons_append, List.dropLast_concat, List.nil_append]
    have hlen : (ss ++ [x]).length = (s0 :: ss).length := by simp
    have hmap : ss.map r = ss := by
      conv_rhs => rw [← List.map_id ss]
      exact List.map_congr_left
        (fun y hy => hrt y (List.mem_cons_of_mem _ (List.mem_append_left _ hy)))
    rw [hlast, hdrop, hlen, undo_iterate_append, hmap, hrt s0 (List.mem_cons_self _ _)]
    simp

theorem undo_total_eq (r : String → String) (s : EditorState) :
    (undo r s).undoStack.length + (undo r s).redoStack.length
      = s.undoStack.length + s.redoStack.length := by
  obtain ⟨e, U, R, L⟩ := s
  rcases List.eq_nil_or_concat U with rfl | ⟨U, p, rfl⟩
  · rw [undo_nil]
  · rw [List.concat_eq_append, undo_snoc]
    simp only [List.length_append, List.length_singleton]
    omega

theorem redo_total_eq (r : String → String) (s : EditorState) :
    (redo r s).undoStack.length + (redo r s).redoStack.length
      = s.undoStack.length + s.redoStack.length := by
  obtain ⟨e, U, R, L⟩ := s
  rcases List.eq_nil_or_concat R with rfl | ⟨R, q, rfl⟩
  · rw [redo_nil]
  · rw [List.concat_eq_append, redo_snoc]
    simp only [List.length_append, List.length_singleton]
    omega

theorem saveState_redoStack_cases (s : EditorState) :
    (saveState s).redoStack = s.redoStack ∨
      (s.innerHTML ≠ s.lastContent ∧ (saveState s).redoStack = []) := by
  by_cases hc : s.innerHTML = s.lastContent
  · left; rw [saveState_same s hc]
  · right; exact ⟨hc, saveState_redoStack_of_ne s hc⟩

/-- With nothing uncaptured, `undo` keeps the timeline; the live content equals
`lastContent` afterwards when the entries of the timeline re-serialise to
themselves. -/
theorem timeline_undo (r : String → String) (s : EditorState)
    (h : s.innerHTML = s.lastContent) :
    timeline (undo r s) = timeline s ∧
      ((∀ x ∈ timeline s, r x = x) → (undo r s).innerHTML = (undo r s).lastContent) := by
  obtain ⟨e, U, R, L⟩ := s
  simp only at h
  subst h
  rcases List.eq_nil_or_concat U with rfl | ⟨U, p, rfl⟩
  · rw [undo_nil]; exact ⟨rfl, fun _ => rfl⟩
  · rw [List.concat_eq_append, undo_snoc]
    refine ⟨by simp [timeline], fun hrt => ?_⟩
    exact hrt p (by simp [timeline])

/-- With nothing uncaptured, `redo` keeps the timeline; the live content equals
`lastContent` afterwards when the entries of the timeline re-serialise to
themselves. -/
theorem timeline_redo (r : String → String) (s : EditorState)
    (h : s.innerHTML = s.lastContent) :
    timeline (redo r s) = timeline s ∧
      ((∀ x ∈ timeline s, r x = x) → (redo r s).innerHTML = (redo r s).lastContent) := by
  obtain ⟨e, U, R, L⟩ := s
  simp only at h
  subst h
  rcases List.eq_nil_or_concat R with rfl | ⟨R, q, rfl⟩
  · rw [redo_nil]; exact ⟨rfl, fun _ => rfl⟩
  · rw [List.concat_eq_append, redo_snoc]
    refine ⟨by simp [timeline], fun hrt => ?_⟩
    exact hrt q (by simp [timeline])

/-- Any mix of `undo` and `redo` calls, started with nothing uncaptured on a
timeline whose entries re-serialise to themselves, keeps the timeline and keeps
`lastContent` equal to the live content. -/
theorem timeline_run (r : String → String) (ops : List Op) :
    ∀ s : EditorState, s.innerHTML = s.lastContent →
      (∀ x ∈ timeline s, r x = x) →
      (∀ op ∈ ops, op = Op.undo ∨ op = Op.redo) →
      timeline (run r s ops) = timeline s ∧
        (run r s ops).innerHTML = (run r s ops).lastContent := by
  induction ops with
  | nil => intro s h _ _; exact ⟨rfl, h⟩
  | cons op ops ih =>
    intro s h hrt hops
    have hrest : ∀ o ∈ ops, o = Op.undo ∨ o = Op.redo :=
      fun o ho => hops o (List.mem_cons_of_mem _ ho)
    have hstep : timeline (step r s op) = timeline s ∧
        (step r s op).innerHTML = (step r s op).lastContent := by
      rcases hops op (List.mem_cons_self _ _) with rfl | rfl
      · exact ⟨(timeline_undo r s h).1, (timeline_undo r s h).2 hrt⟩
      · exact ⟨(timeline_redo r s h).1, (timeline_redo r s h).2 hrt⟩
    have hih := ih (step r s op) hstep.2 (by rw [hstep.1]; exact hrt) hrest
    exact ⟨hih.1.trans hstep.1, hih.2⟩

/-- An event while one timeout armed by `autosave` is in the table: the timeout
runs first when it is due, and is cleared otherwise; a new one is armed. -/
theorem inputEvent_pending (a e i n : Nat) (w : List Nat) (hi : i ≠ 0) :
    inputEvent e ⟨[⟨i, a + autosaveDelay⟩], n, some i, w⟩
      = ⟨[⟨n, e + autosaveDelay⟩], n + 1, some n,
         if a + autosaveDelay ≤ e then w ++ [a + autosaveDelay] else w⟩ := by
  by_cases h : a + autosaveDelay ≤ e
  · simp [inputEvent, runTimers, autosave, setTimeout, clearTimeout, h, hi]
  · simp [inputEvent, runTimers, autosave, setTimeout, clearTimeout, h, hi]

theorem autosave_pageLoaded (load : Nat) :
    autosave load pageLoaded = ⟨[⟨1, load + autosaveDelay⟩], 2, some 1, []⟩ := by
  simp [autosave, pageLoaded, setTimeout]

/-- The writes of a run of time-ordered events that starts with one timeout
armed at time `a`: those already made, and one `autosaveDelay` after every
arming that no later event falls strictly inside of. -/
theorem written_after_events (events : List Nat) :
    ∀ (a i n : Nat) (w : List Nat), i ≠ 0 → n ≠ 0 →
      List.Chain (· ≤ ·) a events → ∀ t : Nat,
      (t ∈ (silence (events.foldl (fun st t => inputEvent t st)
          ⟨[⟨i, a + autosaveDelay⟩], n, some i, w⟩)).written ↔
        (t ∈ w ∨ ∃ b ∈ a :: events, t = b + autosaveDelay ∧
          ∀ e ∈ events, e ≤ b ∨ t ≤ e)) := by
  induction events with
  | nil =>
    intro a i n w _ _ _ t
    simp [silence]
  | cons e es ih =>
    intro a i n w hi hn hch t
    have hpw : List.Pairwise (· ≤ ·) (e :: es) :=
      List.chain_iff_pairwise.mp (List.chain_cons.mp hch).2
    have hae : a ≤ e := (List.chain_cons.mp hch).1
    have hes : ∀ x ∈ es, e ≤ x := fun x hx => List.rel_of_pairwise_cons hpw hx
    rw [List.foldl_cons, inputEvent_pending a e i n w hi,
      ih e n (n + 1) _ hn (Nat.succ_ne_zero n) (List.chain_cons.mp hch).2 t]
    constructor
    · rintro (hw | ⟨b, hb, htb, hP⟩)
      · by_cases h : a + autosaveDelay ≤ e
        · rw [if_pos h] at hw
          rcases List.mem_append.mp hw with hw | hw
          · exact Or.inl hw
          · have hta : t = a + autosaveDelay := by simpa using hw
            refine Or.inr ⟨a, List.mem_cons_self _ _, hta, ?_⟩
            intro x hx
            rcases List.mem_cons.mp hx with rfl | hx
            · right; omega
            · right; have := hes x hx; omega
        · rw [if_neg h] at hw
          exact Or.inl hw
      · refine Or.inr ⟨b, List.mem_cons_of_mem _ hb, htb, ?_⟩
        intro x hx
        rcases List.mem_cons.mp hx with rfl | hx
        · left
          rcases List.mem_cons.mp hb with rfl | hb
          · exact Nat.le_refl _
          · exact hes b hb
        · exact hP x hx
    · rintro (hw | ⟨b, hb, htb, hP⟩)
      · left
        by_cases h : a + autosaveDelay ≤ e
        · rw [if_pos h]; exact List.mem_append_left _ hw
        · rw [if_neg h]; exact hw
      · have hPes : ∀ x ∈ es, x ≤ b ∨ t ≤ x :=
          fun x hx => hP x (List.mem_cons_of_mem _ hx)
        rcases List.mem_cons.mp hb with rfl | hb
        · rcases hP e (List.mem_cons_self _ _) with hle | hle
          · have hbe : b = e := Nat.le_antisymm hae hle
            subst hbe
            exact Or.inr ⟨b, List.mem_cons_self _ _, htb, hPes⟩
          · left
            have h : b + autosaveDelay ≤ e := by omega
            rw [if_pos h]
            exact List.mem_append_right _ (by simp [htb])
        · exact Or.inr ⟨b, hb, htb, hPes⟩

/-- After any run of events that starts with one timeout armed at time `a`,
exactly one timeout is in the table, due `autosaveDelay` after the last
arming. -/
theorem timers_after_events (events : List Nat) :
    ∀ (a i n : Nat) (w : List Nat), i ≠ 0 → n ≠ 0 →
      ((events.foldl (fun st t => inputEvent t st)
          ⟨[⟨i, a + autosaveDelay⟩], n, some i, w⟩).timers.map Timeout.due)
        = [(a :: events).getLast (List.cons_ne_nil a events) + autosaveDelay] := by
  induction events with
  | nil => intro a i n w _ _; rfl
  | cons e es ih =>
    intro a i n w hi hn
    rw [List.foldl_cons, inputEvent_pending a e i n w hi,
      ih e n (n + 1) _ hn (Nat.succ_ne_zero n), List.getLast_cons_cons]

theorem length_consToFirst (c : Nat) (ps : List (List Nat)) (h : ps ≠ []) :
    (consToFirst c ps).length = ps.length := by
  cases ps with
  | nil => exact absurd rfl h
  | cons p ps => rfl

theorem splitWhiteSpace_ne_nil (l : List Nat) : splitWhiteSpace l ≠ [] := by
  induction l with
  | nil => simp [splitWhiteSpace]
  | cons c cs ih =>
    rw [splitWhiteSpace]
    by_cases h : isWhiteSpace c
    · by_cases hs : startsWithSpace cs
      · simpa [h, hs] using ih
      · simp [h, hs]
    · have hc : isWhiteSpace c = false := by simpa using h
      rw [hc]
      simp only [Bool.false_eq_true, if_false]
      intro hnil
      have := length_consToFirst c _ ih
      rw [hnil] at this
      exact ih (List.length_eq_zero.mp this.symm)

theorem length_splitWhiteSpace_cons_of_not (c : Nat) (cs : List Nat)
    (h : isWhiteSpace c = false) :
    (splitWhiteSpace (c :: cs)).length = (splitWhiteSpace cs).length := by
  rw [splitWhiteSpace, h]
  simp only [Bool.false_eq_true, if_false]
  exact length_consToFirst c _ (splitWhiteSpace_ne_nil cs)

theorem countRuns_true_eq (d : Nat) (ds : List Nat) :
    countRuns true (d :: ds) + (isWhiteSpace d).toNat = 1 + countRuns false (d :: ds) := by
  by_cases hd : isWhiteSpace d
  · simp [countRuns, hd]; omega
  · simp [countRuns, hd]

theorem length_splitWhiteSpace (l : List Nat) : ∀ c : Nat,
    (splitWhiteSpace (c :: l)).length
      = countRuns true (c :: l) + (isWhiteSpace c).toNat
        + (isWhiteSpace ((c :: l).getLast (List.cons_ne_nil c l))).toNat := by
  induction l with
  | nil =>
    intro c
    by_cases h : isWhiteSpace c <;>
      simp [splitWhiteSpace, countRuns, h, startsWithSpace, consToFirst]
  | cons d ds ih =>
    intro c
    have hd := ih d
    rw [List.getLast_cons_cons]
    by_cases h : isWhiteSpace c
    · by_cases hdw : isWhiteSpace d
      · have : splitWhiteSpace (c :: d :: ds) = splitWhiteSpace (d :: ds) := by
          rw [splitWhiteSpace]; simp [h, hdw, startsWithSpace]
        rw [this, hd]
        simp [countRuns, h, hdw]
      · have : splitWhiteSpace (c :: d :: ds) = [] :: splitWhiteSpace (d :: ds) := by
          rw [splitWhiteSpace]; simp [h, hdw, startsWithSpace]
        rw [this, List.length_cons, hd]
        simp [countRuns, h, hdw]
        omega
    · have hc : isWhiteSpace c = false := by simpa using h
      rw [length_splitWhiteSpace_cons_of_not c (d :: ds) hc, hd]
      have := countRuns_true_eq d ds
      have hcr : countRuns true (c :: d :: ds) = 1 + countRuns false (d :: ds) := by
        simp [countRuns, hc]
      rw [hcr, hc]
      simp only [Bool.toNat_false]
      omega

theorem countRuns_dropWhile (l : List Nat) :
    countRuns true (l.dropWhile isWhiteSpace) = countRuns true l := by
  induction l with
  | nil => rfl
  | cons c cs ih =>
    by_cases h : isWhiteSpace c
    · simp [List.dropWhile, countRuns, h, ih]
    · simp [List.dropWhile, h]

theorem countRuns_append_space (c : Nat) (h : isWhiteSpace c = true) (l : List Nat) :
    ∀ b : Bool, countRuns b (l ++ [c]) = countRuns b l := by
  induction l with
  | nil => intro b; simp [countRuns, h]
  | cons d ds ih =>
    intro b
    by_cases hd : isWhiteSpace d
    · simp [countRuns, hd, ih]
    · simp [countRuns, hd, ih]

theorem countRuns_rdropWhile (b : Bool) (l : List Nat) :
    countRuns b (l.rdropWhile isWhiteSpace) = countRuns b l := by
  induction l using List.reverseRecOn with
  | nil => simp
  | append_singleton l c ih =>
    by_cases h : isWhiteSpace c
    · rw [List.rdropWhile_concat_pos _ _ _ h, ih, countRuns_append_space c h l b]
    · rw [List.rdropWhile_concat_neg _ _ _ h]

theorem countRuns_trim (l : List Nat) : countRuns true (trim l) = countRuns true l := by
  rw [trim, countRuns_rdropWhile, countRuns_dropWhile]

theorem trim_head_not (c : Nat) (l text : List Nat) (h : trim text = c :: l) :
    isWhiteSpace c = false := by
  have hpre : trim text <+: text.dropWhile isWhiteSpace := List.rdropWhile_prefix isWhiteSpace _
  rw [h] at hpre
  obtain ⟨rest, hrest⟩ := hpre
  have hhead := List.head?_dropWhile_not isWhiteSpace text
  rw [← hrest] at hhead
  simpa using hhead

theorem trim_last_not (c : Nat) (l text : List Nat) (h : trim text = c :: l) :
    isWhiteSpace ((c :: l).getLast (List.cons_ne_nil c l)) = false := by
  have hne : (text.dropWhile isWhiteSpace).rdropWhile isWhiteSpace ≠ [] := by
    rw [← trim, h]; exact List.cons_ne_nil c l
  have hl := List.rdropWhile_last_not isWhiteSpace _ hne
  have heq : ((text.dropWhile isWhiteSpace).rdropWhile isWhiteSpace).getLast hne
      = (c :: l).getLast (List.cons_ne_nil c l) := by
    congr 1
  rw [heq] at hl
  simpa using hl

theorem countRuns_of_all_space (l : List Nat) (h : ∀ c ∈ l, isWhiteSpace c = true) :
    ∀ b : Bool, countRuns b l = 0 := by
  induction l with
  | nil => intro b; rfl
  | cons c cs ih =>
    intro b
    have hc := h c (List.mem_cons_self _ _)
    simp only [countRuns, hc, if_true]
    exact ih (fun x hx => h x (List.mem_cons_of_mem _ hx)) true

theorem updateCounts_words (text : List Nat) :
    (updateCounts text).words = nonWhiteSpaceRuns text := by
  have htext : (if text = [] then [] else text) = text := by
    by_cases h : text = [] <;> simp [h]
  show (if trim (if text = [] then [] else text) = [] then 0
    else (splitWhiteSpace (trim (if text = [] then [] else text))).length) = countRuns true text
  rw [htext, ← countRuns_trim text]
  cases ht : trim text with
  | nil => simp [countRuns]
  | cons c l =>
    rw [if_neg (List.cons_ne_nil c l), length_splitWhiteSpace l c,
      trim_head_not c l text ht, trim_last_not c l text ht]
    simp

/-! ## Claims -/

/-- C1: `saveState` on changed content (`editor.innerHTML !== lastContent`): the
new `undoStack` is the old one with the old `lastContent` appended, with the
entry at index 0 removed exactly when the appended array is longer than 50, and
`lastContent` becomes the live content. -/
theorem saveState_pushes_lastContent (s : EditorState) (h : s.innerHTML ≠ s.lastContent) :
    ((s.undoStack ++ [s.lastContent]).length ≤ 50 →
        (saveState s).undoStack = s.undoStack ++ [s.lastContent]) ∧
    (50 < (s.undoStack ++ [s.lastContent]).length →
        (saveState s).undoStack = (s.undoStack ++ [s.lastContent]).drop 1 ∧
        ∃ oldest, s.undoStack ++ [s.lastContent] = oldest :: (saveState s).undoStack) ∧
    (saveState s).lastContent = s.innerHTML := by
  refine ⟨?_, ?_, ?_⟩
  · intro hle
    have hlt : s.undoStack.length < 50 := by simpa [Nat.lt_iff_add_one_le] using hle
    rw [saveState_changed_le s h hlt]
  · intro hgt
    have hge : 50 ≤ s.undoStack.length := by simpa [Nat.lt_succ_iff] using hgt
    rw [saveState_changed_gt s h hge]
    refine ⟨by simp, ?_⟩
    cases hU : s.undoStack with
    | nil => simp [hU] at hge
    | cons a t => exact ⟨a, by simp⟩
  · by_cases hlt : s.undoStack.length < 50
    · rw [saveState_changed_le s h hlt]
    · rw [saveState_changed_gt s h (by omega)]

/-- Witness for C1: a changed capture on a session with one undo entry. -/
theorem saveState_pushes_lastContent_witness :
    (saveState ⟨"<p>AB</p>", ["<p></p>"], ["<p>Z</p>"], "<p>A</p>"⟩).undoStack
        = ["<p></p>", "<p>A</p>"] ∧
    (saveState ⟨"<p>AB</p>", ["<p></p>"], ["<p>Z</p>"], "<p>A</p>"⟩).lastContent
        = "<p>AB</p>" :=
  have h := saveState_pushes_lastContent ⟨"<p>AB</p>", ["<p></p>"], ["<p>Z</p>"], "<p>A</p>"⟩
    (by decide)
  ⟨h.1 (by decide), h.2.2⟩

/-- C2: `undo` agrees with its reference definition on every state, whatever the
browser's re-serialisation: with an empty `undoStack` nothing changes (stacks,
`lastContent` and live content); otherwise the live content is pushed on
`redoStack`, the last `undoStack` entry is removed, becomes `lastContent` and is
the snapshot restored into the live surface, which then reads as the
re-serialisation of that entry (the entry itself when it re-serialises to
itself). -/
theorem undo_eq_undoRef :
    (∀ (r : String → String) (s : EditorState), undo r s = undoRef r s) ∧
    (∀ (r : String → String) (e : String) (R : List String) (L : String),
        undo r ⟨e, [], R, L⟩ = ⟨e, [], R, L⟩) ∧
    (∀ (r : String → String) (e : String) (U : List String) (p : String)
        (R : List String) (L : String),
        undo r ⟨e, U ++ [p], R, L⟩ = setSnapshot r ⟨e, U, R ++ [e], p⟩ p ∧
        undo r ⟨e, U ++ [p], R, L⟩ = ⟨r p, U, R ++ [e], p⟩ ∧
        (r p = p → undo r ⟨e, U ++ [p], R, L⟩ = ⟨p, U, R ++ [e], p⟩)) := by
  refine ⟨?_, undo_nil, ?_⟩
  · rintro r ⟨e, U, R, L⟩
    rcases List.eq_nil_or_concat U with rfl | ⟨U, p, rfl⟩
    · simp [undo, undoRef]
    · rw [List.concat_eq_append, undo_snoc]
      simp [undoRef, setSnapshot]
  · intro r e U p R L
    refine ⟨undo_snoc r e U p R L, undo_snoc r e U p R L, fun hp => ?_⟩
    rw [undo_snoc, hp]

/-- Witness for C2: an entry that re-serialises to itself becomes the live
content. -/
theorem undo_eq_undoRef_witness :
    undo sampleReserialise ⟨"<p>AB</p>", [] ++ ["<p>A</p>"], [], "<p>AB</p>"⟩
      = ⟨"<p>A</p>", [], [] ++ ["<p>AB</p>"], "<p>A</p>"⟩ :=
  (undo_eq_undoRef.2.2 sampleReserialise "<p>AB</p>" [] "<p>A</p>" [] "<p>AB</p>").2.2
    (by decide)

/-- C3: `redo` agrees with its reference definition on every state, whatever the
browser's re-serialisation: with an empty `redoStack` nothing changes (stacks,
`lastContent` and live content); otherwise the last `redoStack` entry is
removed, the live content is pushed on `undoStack`, and the removed entry
becomes `lastContent` and is the snapshot restored into the live surface, which
then reads as the re-serialisation of that entry (the entry itself when it
re-serialises to itself). -/
theorem redo_eq_redoRef :
    (∀ (r : String → String) (s : EditorState), redo r s = redoRef r s) ∧
    (∀ (r : String → String) (e : String) (U : List String) (L : String),
        redo r ⟨e, U, [], L⟩ = ⟨e, U, [], L⟩) ∧
    (∀ (r : String → String) (e : String) (U R : List String) (q : String)
        (L : String),
        redo r ⟨e, U, R ++ [q], L⟩ = setSnapshot r ⟨e, U ++ [e], R, q⟩ q ∧
        redo r ⟨e, U, R ++ [q], L⟩ = ⟨r q, U ++ [e], R, q⟩ ∧
        (r q = q → redo r ⟨e, U, R ++ [q], L⟩ = ⟨q, U ++ [e], R, q⟩)) := by
  refine ⟨?_, redo_nil, ?_⟩
  · rintro r ⟨e, U, R, L⟩
    rcases List.eq_nil_or_concat R with rfl | ⟨R, q, rfl⟩
    · simp [redo, redoRef]
    · rw [List.concat_eq_append, redo_snoc]
      simp [redoRef, setSnapshot]
  · intro r e U R q L
    refine ⟨redo_snoc r e U R q L, redo_snoc r e U R q L, fun hq => ?_⟩
    rw [redo_snoc, hq]

/-- Witness for C3: an entry that re-serialises to itself becomes the live
content. -/
theorem redo_eq_redoRef_witness :
    redo sampleReserialise ⟨"<p>A</p>", [], [] ++ ["<p>AB</p>"], "<p>A</p>"⟩
      = ⟨"<p>AB</p>", [] ++ ["<p>A</p>"], [], "<p>AB</p>"⟩ :=
  (redo_eq_redoRef.2.2 sampleReserialise "<p>A</p>" [] [] "<p>AB</p>" "<p>A</p>").2.2
    (by decide)

/-- Counterexample for C4: the user inserts a table inside a paragraph and the
content is captured. In the first session the live content is that markup:
after `undo` and `redo` it reads as the re-serialised markup. In the second
session a later edit was captured too, so the markup is the top of `undoStack`:
after `undo` and `redo` the top entry is the re-serialised markup. -/
theorem roundtrip_not_exact :
    (redo sampleReserialise (undo sampleReserialise
        (run sampleReserialise (initialise sampleReserialise none)
          [Op.edit tableInParagraph, Op.capture]))).innerHTML
      ≠ (run sampleReserialise (initialise sampleReserialise none)
          [Op.edit tableInParagraph, Op.capture]).innerHTML ∧
    (redo sampleReserialise (undo sampleReserialise
        (run sampleReserialise (initialise sampleReserialise none)
          [Op.edit tableInParagraph, Op.capture, Op.edit "<p>a</p>",
           Op.capture]))).undoStack
      ≠ (run sampleReserialise (initialise sampleReserialise none)
          [Op.edit tableInParagraph, Op.capture, Op.edit "<p>a</p>",
           Op.capture]).undoStack := by
  decide

/-- C4 (amended): round trip up to re-serialisation. On every state with a
non-empty `undoStack`, `undo` followed at once by `redo` leaves `redoStack` as it
was, leaves `undoStack` as it was except that its last entry is replaced by the
re-serialisation of that entry, and makes the live content the re-serialisation
of the live content present before the `undo`; when that entry and that content
re-serialise to themselves, the live content and both stacks are exactly what
they were. -/
theorem redo_undo_roundtrip (r : String → String) (s : EditorState)
    (h : s.undoStack ≠ []) :
    (redo r (undo r s)).innerHTML = r s.innerHTML ∧
    (redo r (undo r s)).undoStack = s.undoStack.dropLast ++ [r (s.undoStack.getLast h)] ∧
    (redo r (undo r s)).redoStack = s.redoStack ∧
    (r s.innerHTML = s.innerHTML → r (s.undoStack.getLast h) = s.undoStack.getLast h →
      (redo r (undo r s)).innerHTML = s.innerHTML ∧
      (redo r (undo r s)).undoStack = s.undoStack ∧
      (redo r (undo r s)).redoStack = s.redoStack) := by
  obtain ⟨e, U, R, L⟩ := s
  rcases List.eq_nil_or_concat U with rfl | ⟨U, p, rfl⟩
  · exact absurd rfl h
  · have hrun : redo r (undo r ⟨e, U ++ [p], R, L⟩) = ⟨r e, U ++ [r p], R, e⟩ := by
      rw [undo_snoc, redo_snoc]
    simp only [List.concat_eq_append] at h ⊢
    refine ⟨?_, ?_, ?_, ?_⟩
    · rw [hrun]
    · rw [hrun]; simp
    · rw [hrun]
    · intro he hp
      rw [hrun]
      simp only [List.getLast_append_singleton] at hp
      exact ⟨he, by rw [hp], rfl⟩

/-- Witness for C4: a session with two undo entries, one redo entry and an
uncaptured edit, all of markup that re-serialises to itself. -/
theorem redo_undo_roundtrip_witness :
    (redo sampleReserialise (undo sampleReserialise
      ⟨"<p>ABC!</p>", ["<p>A</p>", "<p>AB</p>"], ["<p>Z</p>"],
        "<p>ABC</p>"⟩)).innerHTML = "<p>ABC!</p>" ∧
    (redo sampleReserialise (undo sampleReserialise
      ⟨"<p>ABC!</p>", ["<p>A</p>", "<p>AB</p>"], ["<p>Z</p>"],
        "<p>ABC</p>"⟩)).undoStack = ["<p>A</p>", "<p>AB</p>"] ∧
    (redo sampleReserialise (undo sampleReserialise
      ⟨"<p>ABC!</p>", ["<p>A</p>", "<p>AB</p>"], ["<p>Z</p>"],
        "<p>ABC</p>"⟩)).redoStack = ["<p>Z</p>"] :=
  (redo_undo_roundtrip sampleReserialise
    ⟨"<p>ABC!</p>", ["<p>A</p>", "<p>AB</p>"], ["<p>Z</p>"], "<p>ABC</p>"⟩
    (by decide)).2.2.2 (by decide) (by decide)

/-- C5: in every state reached from initialisation (whatever the stored
autosave value and whatever the browser's re-serialisation) by any sequence of
live edits, `saveState`, `undo` and `redo` calls, `undoStack.length` is at most
50. -/
theorem undoStack_length_le_50 (r : String → String)
    (autosavedContent : Option String) (ops : List Op) :
    (run r (initialise r autosavedContent) ops).undoStack.length ≤ 50 := by
  have h := run_total_le r (initialise r autosavedContent) ops (by simp [initialise])
  omega

/-- C6: FIFO eviction keeps the newest entries in order. Starting from content
`s0` with empty stacks and capturing `s1, ..., sn` in turn, each different from
its predecessor, with `n > 50`, `undoStack` is `[s(n-50), ..., s(n-1)]` from
oldest to newest: it has 50 entries and its entry `i` is `s(n-50+i)`. -/
theorem captureAll_keeps_newest (s0 : String) (ss : List String)
    (hchain : List.Chain (· ≠ ·) s0 ss) (hn : 50 < ss.length) :
    (captureAll (fresh s0) ss).undoStack
        = ((s0 :: ss).dropLast).drop (ss.length - 50) ∧
    (captureAll (fresh s0) ss).undoStack.length = 50 ∧
    ∀ i, i < 50 →
      (captureAll (fresh s0) ss).undoStack[i]? = (s0 :: ss)[ss.length - 50 + i]? := by
  have hrun := captureAll_chain ss s0 [] [] (by simp) hchain
  have hU : (captureAll (fresh s0) ss).undoStack
      = ((s0 :: ss).dropLast).drop (ss.length - 50) := by
    show (captureAll ⟨s0, [], [], s0⟩ ss).undoStack = _
    rw [hrun]
    simp
  refine ⟨hU, ?_, ?_⟩
  · rw [hU]
    simp only [List.length_drop, List.length_dropLast, List.length_cons]
    omega
  · intro i hi
    rw [hU, List.getElem?_drop, List.dropLast_eq_take, List.getElem?_take_of_lt]
    simp only [List.length_cons]
    omega

/-- Witness for C6: 51 captures of a growing text; the empty initial content has
been evicted and the 50 previous snapshots remain. -/
theorem captureAll_keeps_newest_witness :
    (captureAll (fresh "") (typedSnapshots 51)).undoStack
        = (("" :: typedSnapshots 51).dropLast).drop ((typedSnapshots 51).length - 50) ∧
    (captureAll (fresh "") (typedSnapshots 51)).undoStack.length = 50 ∧
    ∀ i, i < 50 →
      (captureAll (fresh "") (typedSnapshots 51)).undoStack[i]?
        = ("" :: typedSnapshots 51)[(typedSnapshots 51).length - 50 + i]? :=
  captureAll_keeps_newest "" (typedSnapshots 51) (by simp [typedSnapshots])
    (by simp [typedSnapshots])

/-- Counterexample for C7: on a freshly initialised session the user types and
then presses undo (or redo) before any capture; the stack is empty, the call
changes nothing, and `lastContent` still holds the initial content, not the live
content. And when `undo` pops the markup of a table inside a paragraph,
`lastContent` is that markup while the live content is its re-serialisation. -/
theorem lastContent_stale_after_noop :
    (undo sampleReserialise (run sampleReserialise (initialise sampleReserialise none)
        [Op.edit "<p>A</p>"])).lastContent
      ≠ (undo sampleReserialise (run sampleReserialise (initialise sampleReserialise none)
        [Op.edit "<p>A</p>"])).innerHTML ∧
    (redo sampleReserialise (run sampleReserialise (initialise sampleReserialise none)
        [Op.edit "<p>A</p>"])).lastContent
      ≠ (redo sampleReserialise (run sampleReserialise (initialise sampleReserialise none)
        [Op.edit "<p>A</p>"])).innerHTML ∧
    (undo sampleReserialise (run sampleReserialise (initialise sampleReserialise none)
        [Op.edit tableInParagraph, Op.capture, Op.edit "<p>a</p>",
         Op.capture])).lastContent
      ≠ (undo sampleReserialise (run sampleReserialise (initialise sampleReserialise none)
        [Op.edit tableInParagraph, Op.capture, Op.edit "<p>a</p>",
         Op.capture])).innerHTML := by
  decide

/-- C7 (amended): `lastContent` equals the live content right after every
`saveState` call. Right after `undo` it does so exactly when `undoStack` was
non-empty and its last entry re-serialises to itself, or `undoStack` was empty
and the two were already equal before the call; right after `redo` exactly when
`redoStack` was non-empty and its last entry re-serialises to itself, or
`redoStack` was empty and the two were already equal. -/
theorem lastContent_eq_innerHTML_after (r : String → String) (s : EditorState) :
    (saveState s).lastContent = (saveState s).innerHTML ∧
    ((undo r s).lastContent = (undo r s).innerHTML ↔
        ((∃ p, s.undoStack.getLast? = some p ∧ r p = p) ∨
          (s.undoStack = [] ∧ s.lastContent = s.innerHTML))) ∧
    ((redo r s).lastContent = (redo r s).innerHTML ↔
        ((∃ q, s.redoStack.getLast? = some q ∧ r q = q) ∨
          (s.redoStack = [] ∧ s.lastContent = s.innerHTML))) := by
  refine ⟨?_, ?_, ?_⟩
  · rw [saveState_lastContent, saveState_innerHTML]
  · obtain ⟨e, U, R, L⟩ := s
    rcases List.eq_nil_or_concat U with rfl | ⟨U, p, rfl⟩
    · rw [undo_nil]; simp
    · rw [List.concat_eq_append, undo_snoc]
      simp only [List.getLast?_append, List.getLast?_singleton, Option.or_some,
        Option.some.injEq, exists_eq_left', List.append_eq_nil, List.cons_ne_nil,
        and_false, false_and, or_false]
      exact eq_comm
  · obtain ⟨e, U, R, L⟩ := s
    rcases List.eq_nil_or_concat R with rfl | ⟨R, q, rfl⟩
    · rw [redo_nil]; simp
    · rw [List.concat_eq_append, redo_snoc]
      simp only [List.getLast?_append, List.getLast?_singleton, Option.or_some,
        Option.some.injEq, exists_eq_left', List.append_eq_nil, List.cons_ne_nil,
        and_false, false_and, or_false]
      exact eq_comm

/-- C8: branching invalidation. After a `saveState` whose live content differs
from `lastContent` the `redoStack` is empty and an immediately following `redo`
changes nothing, whatever the `redoStack` held before. In the scenario capture
"<p>X</p>", undo, capture "<p>Y</p>", run from any initial content other than
"<p>Y</p>" itself, the `redoStack` ends empty. -/
theorem saveState_clears_redoStack :
    (∀ (r : String → String) (s : EditorState), s.innerHTML ≠ s.lastContent →
        (saveState s).redoStack = [] ∧ redo r (saveState s) = saveState s) ∧
    (∀ (r : String → String) (autosavedContent : Option String),
        (initialise r autosavedContent).innerHTML ≠ "<p>Y</p>" →
        (capture (undo r (capture (initialise r autosavedContent) "<p>X</p>"))
            "<p>Y</p>").redoStack = []) := by
  have hgen : ∀ (r : String → String) (s : EditorState), s.innerHTML ≠ s.lastContent →
      (saveState s).redoStack = [] ∧ redo r (saveState s) = saveState s := by
    intro r s h
    have hr := saveState_redoStack_of_ne s h
    refine ⟨hr, ?_⟩
    generalize saveState s = t at hr
    obtain ⟨e, U, R, L⟩ := t
    simp only at hr
    subst hr
    exact redo_nil r e U L
  refine ⟨hgen, ?_⟩
  intro r stored h0
  have hinit : initialise r stored = ⟨(initialise r stored).innerHTML, [], [],
      (initialise r stored).innerHTML⟩ := rfl
  rw [hinit]
  generalize (initialise r stored).innerHTML = c at h0
  apply (hgen r _ _).1
  show "<p>Y</p>" ≠ (undo r (capture ⟨c, [], [], c⟩ "<p>X</p>")).lastContent
  by_cases hc : c = "<p>X</p>"
  · have hsame : capture ⟨c, [], [], c⟩ "<p>X</p>" = ⟨c, [], [], c⟩ := by
      rw [hc]; exact saveState_same _ rfl
    rw [hsame, undo_nil]
    exact fun h => h0 h.symm
  · rw [capture_of_ne c "<p>X</p>" [] [] hc (by simp)]
    have hu := undo_snoc r "<p>X</p>" [] c [] "<p>X</p>"
    simp only [List.nil_append] at hu
    simp only [List.nil_append, List.length_singleton, Nat.reduceSub, List.drop_zero]
    rw [hu]
    exact fun h => h0 h.symm

/-- Witness for C8: the scenario on a session started with the placeholder
document. The `undo` leaves one entry on `redoStack`; the capture of "<p>Y</p>"
empties it and the following `redo` is a no-op. -/
theorem saveState_clears_redoStack_witness :
    (undo sampleReserialise
      (capture (initialise sampleReserialise none) "<p>X</p>")).redoStack
        = ["<p>X</p>"] ∧
    (capture (undo sampleReserialise
      (capture (initialise sampleReserialise none) "<p>X</p>")) "<p>Y</p>").redoStack
        = [] ∧
    redo sampleReserialise (capture (undo sampleReserialise
        (capture (initialise sampleReserialise none) "<p>X</p>")) "<p>Y</p>")
      = capture (undo sampleReserialise
        (capture (initialise sampleReserialise none) "<p>X</p>")) "<p>Y</p>" :=
  ⟨by decide,
   saveState_clears_redoStack.1 sampleReserialise
     (edit (undo sampleReserialise
       (capture (initialise sampleReserialise none) "<p>X</p>")) "<p>Y</p>")
     (by decide)⟩

/-- C9: capture is idempotent under repetition. A `saveState` whose live content
equals `lastContent` changes nothing; two consecutive `saveState` calls give the
same state as one; and capturing a sequence of snapshots grows `undoStack` by at
most the number of runs of identical consecutive snapshots in the sequence
(the length of the sequence with consecutive duplicates removed). -/
theorem saveState_idempotent :
    (∀ s : EditorState, s.innerHTML = s.lastContent → saveState s = s) ∧
    (∀ s : EditorState, saveState (saveState s) = saveState s) ∧
    (∀ (s : EditorState) (cs : List String),
        (captureAll s cs).undoStack.length
          ≤ s.undoStack.length + (List.destutter (· ≠ ·) cs).length) := by
  refine ⟨saveState_same, ?_, ?_⟩
  · intro s
    apply saveState_same
    rw [saveState_lastContent, saveState_innerHTML]
  · intro s cs
    have h1 := captureAll_length_aux cs s
    have h2 := destutter_aux_length_le s.lastContent cs
    omega

/-- Witness for C9: a capture with nothing to record, and the polling of a text
that changed twice (three runs in the sequence, two of them new). -/
theorem saveState_idempotent_witness :
    saveState ⟨"<p>A</p>", ["<p></p>"], ["<p>Z</p>"], "<p>A</p>"⟩
      = ⟨"<p>A</p>", ["<p></p>"], ["<p>Z</p>"], "<p>A</p>"⟩ ∧
    (captureAll (fresh "<p>A</p>")
        ["<p>A</p>", "<p>A</p>", "<p>AB</p>", "<p>AB</p>", "<p>ABC</p>"]).undoStack.length
      ≤ (fresh "<p>A</p>").undoStack.length + (List.destutter (· ≠ ·)
        ["<p>A</p>", "<p>A</p>", "<p>AB</p>", "<p>AB</p>", "<p>ABC</p>"]).length :=
  ⟨saveState_idempotent.1 ⟨"<p>A</p>", ["<p></p>"], ["<p>Z</p>"], "<p>A</p>"⟩ rfl,
   saveState_idempotent.2.2 (fresh "<p>A</p>")
     ["<p>A</p>", "<p>A</p>", "<p>AB</p>", "<p>AB</p>", "<p>ABC</p>"]⟩

/-- Counterexample for C10: from the placeholder document the user inserts a
table inside a paragraph (captured) and then replaces the content (captured);
`n = 2`. The first undo should restore the table markup `s1`, but the live
content is its re-serialisation; and after the third undo, a no-op, the redo
restores the re-serialised markup that the second undo pushed, not `s1`. -/
theorem undo_restores_reserialised :
    List.Chain (· ≠ ·) defaultContent [tableInParagraph, "<p>a</p>"] ∧
    ((undo sampleReserialise)^[1]
      (captureAll (fresh defaultContent) [tableInParagraph, "<p>a</p>"])).innerHTML
      ≠ tableInParagraph ∧
    (redo sampleReserialise ((undo sampleReserialise)^[3]
      (captureAll (fresh defaultContent) [tableInParagraph, "<p>a</p>"]))).innerHTML
      ≠ tableInParagraph ∧
    (redo sampleReserialise ((undo sampleReserialise)^[3]
      (captureAll (fresh defaultContent) [tableInParagraph, "<p>a</p>"]))).lastContent
      ≠ tableInParagraph :=
  ⟨List.Chain.cons (by decide) (List.Chain.cons (by decide) List.Chain.nil),
   by decide, by decide, by decide⟩

/-- C10 (amended): undo walks history back in LIFO order, up to
re-serialisation. Starting from content `s0` with empty stacks and capturing
`s1, ..., sn`, each different from its predecessor, with `n ≤ 50`: the `k`-th
successive undo (`1 ≤ k ≤ n`) makes `s(n-k)` the `lastContent` and the live
content its re-serialisation, and the `(n+1)`-th undo changes nothing. When
every snapshot re-serialises to itself, the `k`-th undo leaves the content at
`s(n-k)`, the `(n+1)`-th leaves it at `s0`, and a following redo restores `s1`. -/
theorem undo_walks_back (r : String → String) (s0 : String) (ss : List String)
    (hchain : List.Chain (· ≠ ·) s0 ss) (hn : ss.length ≤ 50) :
    (∀ k, 1 ≤ k → k ≤ ss.length →
        some ((undo r)^[k] (captureAll (fresh s0) ss)).innerHTML
          = ((s0 :: ss)[ss.length - k]?).map r ∧
        some ((undo r)^[k] (captureAll (fresh s0) ss)).lastContent
          = (s0 :: ss)[ss.length - k]?) ∧
    (undo r)^[ss.length + 1] (captureAll (fresh s0) ss)
      = (undo r)^[ss.length] (captureAll (fresh s0) ss) ∧
    ((∀ x ∈ s0 :: ss, r x = x) →
      (∀ k, 1 ≤ k → k ≤ ss.length →
        some ((undo r)^[k] (captureAll (fresh s0) ss)).innerHTML
          = (s0 :: ss)[ss.length - k]?) ∧
      ((undo r)^[ss.length + 1] (captureAll (fresh s0) ss)).innerHTML = s0 ∧
      (∀ s1 rest, ss = s1 :: rest →
        (redo r ((undo r)^[ss.length + 1]
          (captureAll (fresh s0) ss))).innerHTML = s1)) := by
  have hgen : ∀ k, 1 ≤ k → k ≤ ss.length →
      some ((undo r)^[k] (captureAll (fresh s0) ss)).innerHTML
        = ((s0 :: ss)[ss.length - k]?).map r ∧
      some ((undo r)^[k] (captureAll (fresh s0) ss)).lastContent
        = (s0 :: ss)[ss.length - k]? := by
    intro k hk1 hkn
    rw [captureAll_fresh_small s0 ss hchain hn]
    generalize (s0 :: ss).getLast (List.cons_ne_nil s0 ss) = e
    have hUlen : (s0 :: ss).dropLast.length = ss.length := by simp
    have hT : (s0 :: ss)[ss.length - k]? = ((s0 :: ss).dropLast.drop (ss.length - k))[0]? := by
      rw [List.getElem?_drop, List.dropLast_eq_take, List.getElem?_take_of_lt]
      · rfl
      · simp only [List.length_cons]; omega
    have hsplit := (List.take_append_drop (ss.length - k) (s0 :: ss).dropLast).symm
    cases hd : (s0 :: ss).dropLast.drop (ss.length - k) with
    | nil =>
      have hl := congrArg List.length hd
      simp only [List.length_drop, hUlen, List.length_nil] at hl
      omega
    | cons b B =>
      have hl := congrArg List.length hd
      simp only [List.length_drop, hUlen] at hl
      have hk : k = (b :: B).length := by omega
      rw [hT, hd, hsplit, hd, hk, undo_iterate_append]
      simp
  have hnoop : (undo r)^[ss.length + 1] (captureAll (fresh s0) ss)
      = (undo r)^[ss.length] (captureAll (fresh s0) ss) := by
    rw [Function.iterate_succ_apply']
    exact undo_of_nil r _ (undo_all_undoStack r s0 ss hchain hn)
  refine ⟨hgen, hnoop, fun hrt => ?_⟩
  have hall := undo_all_fresh_small r s0 ss hchain hn hrt
  refine ⟨?_, ?_, ?_⟩
  · intro k hk1 hkn
    have hg := (hgen k hk1 hkn).1
    cases hy : (s0 :: ss)[ss.length - k]? with
    | none =>
      have hlen := List.getElem?_eq_none_iff.mp hy
      simp only [List.length_cons] at hlen
      omega
    | some y =>
      rw [hy, Option.map_some', hrt y (List.getElem?_mem hy)] at hg
      exact hg
  · rw [hnoop, hall]
  · intro s1 rest hss
    rw [hnoop, hall, hss, List.reverse_cons, redo_snoc,
      hrt s1 (by rw [hss]; simp)]

/-- Witness for C10: the scenario of the spec. From "<p>A</p>", capture
"<p>AB</p>" and "<p>ABC</p>"; the undos restore "<p>AB</p>", then "<p>A</p>",
then nothing; the redo restores "<p>AB</p>". -/
theorem undo_walks_back_witness :
    ((undo sampleReserialise)^[1]
      (captureAll (fresh "<p>A</p>") ["<p>AB</p>", "<p>ABC</p>"])).innerHTML
      = "<p>AB</p>" ∧
    ((undo sampleReserialise)^[2]
      (captureAll (fresh "<p>A</p>") ["<p>AB</p>", "<p>ABC</p>"])).innerHTML
      = "<p>A</p>" ∧
    (undo sampleReserialise)^[3]
        (captureAll (fresh "<p>A</p>") ["<p>AB</p>", "<p>ABC</p>"])
      = (undo sampleReserialise)^[2]
        (captureAll (fresh "<p>A</p>") ["<p>AB</p>", "<p>ABC</p>"]) ∧
    ((undo sampleReserialise)^[3]
      (captureAll (fresh "<p>A</p>") ["<p>AB</p>", "<p>ABC</p>"])).innerHTML
      = "<p>A</p>" ∧
    (redo sampleReserialise ((undo sampleReserialise)^[3] (captureAll (fresh "<p>A</p>")
      ["<p>AB</p>", "<p>ABC</p>"]))).innerHTML = "<p>AB</p>" :=
  have h := undo_walks_back sampleReserialise "<p>A</p>" ["<p>AB</p>", "<p>ABC</p>"]
    (by simp) (by decide)
  have h2 := h.2.2 (by decide)
  ⟨Option.some.inj (h2.1 1 (by decide) (by decide)),
   Option.some.inj (h2.1 2 (by decide) (by decide)),
   h.2.1, h2.2.1, h2.2.2 "<p>AB</p>" ["<p>ABC</p>"] rfl⟩

/-- Counterexample for C11: after capture "<p>X</p>" and undo the `redoStack`
holds one entry; the user types "<p>Y</p>" and the next `saveState` removes that
entry, although the operation is a capture and not a redo. -/
theorem capture_drains_redoStack :
    (step sampleReserialise (run sampleReserialise (initialise sampleReserialise none)
        [Op.edit "<p>X</p>", Op.capture, Op.undo, Op.edit "<p>Y</p>"])
        Op.capture).redoStack.length
      < (run sampleReserialise (initialise sampleReserialise none)
        [Op.edit "<p>X</p>", Op.capture, Op.undo, Op.edit "<p>Y</p>"]).redoStack.length ∧
    Op.capture ≠ Op.redo := by
  decide

/-- C11 (amended): `redoStack` is only ever populated by `undo`, which pushes the
live content on it; it loses entries only through `redo`, which removes its most
recent entry, or through a `saveState` on changed content, which empties it;
any operation that leaves its length unchanged leaves it unchanged. -/
theorem redoStack_flow (r : String → String) (s : EditorState) (op : Op) :
    (s.redoStack.length < (step r s op).redoStack.length →
        op = Op.undo ∧ (step r s op).redoStack = s.redoStack ++ [s.innerHTML]) ∧
    ((step r s op).redoStack.length < s.redoStack.length →
        (op = Op.redo ∧ ∃ x, s.redoStack = (step r s op).redoStack ++ [x]) ∨
        (op = Op.capture ∧ s.innerHTML ≠ s.lastContent ∧ (step r s op).redoStack = [])) ∧
    ((step r s op).redoStack.length = s.redoStack.length →
        (step r s op).redoStack = s.redoStack) := by
  obtain ⟨e, U, R, L⟩ := s
  cases op with
  | edit content =>
    refine ⟨fun h => ?_, fun h => ?_, fun _ => rfl⟩
    · exact absurd h (Nat.lt_irrefl _)
    · exact absurd h (Nat.lt_irrefl _)
  | capture =>
    show (R.length < (saveState ⟨e, U, R, L⟩).redoStack.length → _) ∧
      ((saveState ⟨e, U, R, L⟩).redoStack.length < R.length → _) ∧
      ((saveState ⟨e, U, R, L⟩).redoStack.length = R.length →
        (saveState ⟨e, U, R, L⟩).redoStack = R)
    rcases saveState_redoStack_cases ⟨e, U, R, L⟩ with h | ⟨hne, h⟩
    · rw [h]
      refine ⟨fun h => ?_, fun h => ?_, fun _ => rfl⟩
      · exact absurd h (Nat.lt_irrefl _)
      · exact absurd h (Nat.lt_irrefl _)
    · rw [h]
      refine ⟨fun h => ?_, fun _ => Or.inr ⟨rfl, hne, h⟩, fun h => ?_⟩
      · exact absurd h (Nat.not_lt_zero _)
      · exact (List.length_eq_zero.mp h.symm).symm
  | undo =>
    show (R.length < (undo r ⟨e, U, R, L⟩).redoStack.length → _) ∧
      ((undo r ⟨e, U, R, L⟩).redoStack.length < R.length → _) ∧
      ((undo r ⟨e, U, R, L⟩).redoStack.length = R.length →
        (undo r ⟨e, U, R, L⟩).redoStack = R)
    rcases List.eq_nil_or_concat U with rfl | ⟨U, p, rfl⟩
    · rw [undo_nil]
      refine ⟨fun h => ?_, fun h => ?_, fun _ => rfl⟩
      · exact absurd h (Nat.lt_irrefl _)
      · exact absurd h (Nat.lt_irrefl _)
    · rw [List.concat_eq_append, undo_snoc]
      refine ⟨fun _ => ⟨rfl, congrArg EditorState.redoStack (undo_snoc r e U p R L)⟩,
        fun h => ?_, fun h => ?_⟩
      · simp at h
      · simp at h
  | redo =>
    show (R.length < (redo r ⟨e, U, R, L⟩).redoStack.length → _) ∧
      ((redo r ⟨e, U, R, L⟩).redoStack.length < R.length → _) ∧
      ((redo r ⟨e, U, R, L⟩).redoStack.length = R.length →
        (redo r ⟨e, U, R, L⟩).redoStack = R)
    rcases List.eq_nil_or_concat R with rfl | ⟨R, q, rfl⟩
    · rw [redo_nil]
      refine ⟨fun h => ?_, fun h => ?_, fun _ => rfl⟩
      · exact absurd h (Nat.lt_irrefl _)
      · exact absurd h (Nat.lt_irrefl _)
    · rw [List.concat_eq_append, redo_snoc]
      refine ⟨fun h => ?_, fun _ => Or.inl ⟨rfl, q,
        (congrArg (fun t => t.redoStack ++ [q]) (redo_snoc r e U R q L)).symm⟩, fun h => ?_⟩
      · simp at h
      · simp at h

/-- Witness for C11: an `undo` that grows `redoStack`, a `saveState` on changed
content that empties it, and a `redo` that pops it. -/
theorem redoStack_flow_witness :
    (step sampleReserialise ⟨"<p>AB</p>", ["<p>A</p>"], [], "<p>AB</p>"⟩ Op.undo).redoStack
      = [] ++ ["<p>AB</p>"] ∧
    (step sampleReserialise ⟨"<p>Y</p>", [], ["<p>X</p>"], "<p>A</p>"⟩ Op.capture).redoStack = [] ∧
    (∃ x, ["<p>X</p>"]
      = (step sampleReserialise ⟨"<p>A</p>", [], ["<p>X</p>"], "<p>A</p>"⟩ Op.redo).redoStack ++ [x]) ∧
    (step sampleReserialise ⟨"<p>Y</p>", [], ["<p>X</p>"], "<p>A</p>"⟩
      (Op.edit "<p>Z</p>")).redoStack = ["<p>X</p>"] :=
  ⟨((redoStack_flow sampleReserialise ⟨"<p>AB</p>", ["<p>A</p>"], [], "<p>AB</p>"⟩ Op.undo).1
      (by decide)).2,
   (((redoStack_flow sampleReserialise ⟨"<p>Y</p>", [], ["<p>X</p>"], "<p>A</p>"⟩ Op.capture).2.1
      (by decide)).resolve_left (fun h => absurd h.1 (by decide))).2.2,
   (((redoStack_flow sampleReserialise ⟨"<p>A</p>", [], ["<p>X</p>"], "<p>A</p>"⟩ Op.redo).2.1
      (by decide)).resolve_right (fun h => absurd h.1 (by decide))).2,
   (redoStack_flow sampleReserialise ⟨"<p>Y</p>", [], ["<p>X</p>"], "<p>A</p>"⟩
      (Op.edit "<p>Z</p>")).2.2 (by decide)⟩

/-- Counterexample for C12: after one capture, `undo` replaces the live content
by what the popped entry reads back as, and the following `redo` replaces it
again. -/
theorem undo_changes_live_content :
    (undo sampleReserialise (run sampleReserialise (initialise sampleReserialise none)
        [Op.edit "<p>A</p>", Op.capture])).innerHTML
      ≠ (run sampleReserialise (initialise sampleReserialise none)
        [Op.edit "<p>A</p>", Op.capture]).innerHTML ∧
    (redo sampleReserialise (run sampleReserialise (initialise sampleReserialise none)
        [Op.edit "<p>A</p>", Op.capture, Op.undo])).innerHTML
      ≠ (run sampleReserialise (initialise sampleReserialise none)
        [Op.edit "<p>A</p>", Op.capture, Op.undo]).innerHTML := by
  decide

/-- C12 (amended): `undo` and `redo` write the popped snapshot into the live
surface themselves: after `undo` the live content is the re-serialisation of the
most recent `undoStack` entry when there is one and is unchanged otherwise,
after `redo` it is the re-serialisation of the most recent `redoStack` entry
when there is one and is unchanged otherwise; `saveState` never changes the live
content. -/
theorem undo_redo_write_live (r : String → String) (s : EditorState) :
    (undo r s).innerHTML = (s.undoStack.getLast?.map r).getD s.innerHTML ∧
    (redo r s).innerHTML = (s.redoStack.getLast?.map r).getD s.innerHTML ∧
    (saveState s).innerHTML = s.innerHTML := by
  obtain ⟨e, U, R, L⟩ := s
  refine ⟨?_, ?_, saveState_innerHTML _⟩
  · rcases List.eq_nil_or_concat U with rfl | ⟨U, p, rfl⟩
    · rw [undo_nil]; rfl
    · rw [List.concat_eq_append, undo_snoc]; simp
  · rcases List.eq_nil_or_concat R with rfl | ⟨R, q, rfl⟩
    · rw [redo_nil]; rfl
    · rw [List.concat_eq_append, redo_snoc]; simp

/-- Counterexample for C13: the timer does not start idle. The page loads at
time 0 and no `input` event ever occurs, yet the timeout armed by the initial
`autosave()` call writes to storage at 5000 ms. -/
theorem autosave_writes_without_event :
    5000 ∈ (autosaveSession 0 []).written ∧
    ¬ ∃ a ∈ ([] : List Nat), 5000 = a + autosaveDelay := by
  decide

/-- C13 (amended): autosave is a trailing-edge debounce with delay 5000 ms whose
timer is armed once at page load and re-armed by every `input` event. For every
time-ordered sequence of events after the load, a write to storage happens at
time `t` exactly when an arming (the initial call or an event) occurred at
`t - 5000` and no event occurred strictly in between. Every event cancels the
pending timeout and arms a new one: an event that finds a timeout pending and
not yet due removes it from the browser's table without a write, and after the
load and any sequence of events exactly one timeout is in the table, due 5000 ms
after the last arming. -/
theorem autosave_debounce :
    (∀ (load : Nat) (events : List Nat), List.Chain (· ≤ ·) load events →
      ∀ t : Nat, (t ∈ (autosaveSession load events).written ↔
        ∃ a ∈ load :: events, t = a + 5000 ∧ ∀ e ∈ events, e ≤ a ∨ t ≤ e)) ∧
    (∀ (now due id next : Nat) (w : List Nat), id ≠ 0 → now < due →
      inputEvent now ⟨[⟨id, due⟩], next, some id, w⟩
        = ⟨[⟨next, now + 5000⟩], next + 1, some next, w⟩) ∧
    (∀ (load : Nat) (events : List Nat),
      (afterEvents load events).timers.map Timeout.due
        = [(load :: events).getLast (List.cons_ne_nil load events) + 5000]) := by
  refine ⟨?_, ?_, ?_⟩
  · intro load events hch t
    have h := written_after_events events load 1 2 [] (by decide) (by decide) hch t
    simp only [List.not_mem_nil, false_or] at h
    rw [← autosave_pageLoaded] at h
    exact h
  · intro now due id next w hid hlt
    have hnot : ¬ due ≤ now := by omega
    simp [inputEvent, runTimers, autosave, setTimeout, clearTimeout, hid, hnot,
      autosaveDelay]
  · intro load events
    have h := timers_after_events events load 1 2 [] (by decide) (by decide)
    rw [← autosave_pageLoaded] at h
    exact h

/-- Witness for C13: page load at time 0. Events at 0, 1, 2 and 3 s give a
single write, at 8 s; a single event at 0 followed by silence gives exactly one
write, at 5 s; an event at 1 s cancels the timeout armed at load; with no
event at all there is one write, at 5 s, and none after it. -/
theorem autosave_debounce_witness :
    (8000 ∈ (autosaveSession 0 [0, 1000, 2000, 3000]).written ↔
      ∃ a ∈ [0, 0, 1000, 2000, 3000], 8000 = a + 5000 ∧
        ∀ e ∈ [0, 1000, 2000, 3000], e ≤ a ∨ 8000 ≤ e) ∧
    inputEvent 1000 ⟨[⟨1, 5000⟩], 2, some 1, []⟩ = ⟨[⟨2, 1000 + 5000⟩], 2 + 1, some 2, []⟩ ∧
    (autosaveSession 0 [0, 1000, 2000, 3000]).written = [8000] ∧
    (autosaveSession 0 [0]).written = [5000] ∧
    (autosaveSession 0 []).written = [5000] :=
  ⟨autosave_debounce.1 0 [0, 1000, 2000, 3000] (by simp) 8000,
   autosave_debounce.2.1 1000 5000 1 2 [] (by decide) (by decide),
   by decide, by decide, by decide⟩

/-- C14: a persistence failure never touches the editing session. When the
storage write of the autosave timer callback throws, the callback returns
normally and the live content, `undoStack`, `redoStack` and `lastContent` are
what they were before the callback ran. -/
theorem autosaveCallback_failure_keeps_session (time : String) (p : Page) :
    ∃ p1 : Page, autosaveCallback true time p = Except.ok p1 ∧
      p1.session.innerHTML = p.session.innerHTML ∧
      p1.session.undoStack = p.session.undoStack ∧
      p1.session.redoStack = p.session.redoStack ∧
      p1.session.lastContent = p.session.lastContent ∧
      p1.storage = p.storage :=
  ⟨{ p with consoleErrors := p.consoleErrors ++ ["Error autosaving content:"] },
    by simp [autosaveCallback, setItem], rfl, rfl, rfl, rfl, rfl⟩

/-- C15 (the code at the failing input): when the storage write throws, the
autosave timer callback calls `console.error` and shows no notification, while
the manual save handler calls `console.error` and shows the notification
"Error saving document" of type "error". -/
theorem autosaveCallback_failure_not_notified (time : String) (p : Page) :
    (∃ p1 : Page, autosaveCallback true time p = Except.ok p1 ∧
      p1.notifications = p.notifications ∧
      p1.consoleErrors = p.consoleErrors ++ ["Error autosaving content:"]) ∧
    (∃ p2 : Page, saveDocClick true time p = Except.ok p2 ∧
      p2.notifications = p.notifications ++ [("Error saving document", "error")] ∧
      p2.consoleErrors = p.consoleErrors ++ ["Error saving document:"]) :=
  ⟨⟨{ p with consoleErrors := p.consoleErrors ++ ["Error autosaving content:"] },
      by simp [autosaveCallback, setItem], rfl, rfl⟩,
   ⟨showNotification
      { p with downloads := p.downloads ++ [p.session.innerHTML],
               consoleErrors := p.consoleErrors ++ ["Error saving document:"] }
      "Error saving document" "error",
      by simp [saveDocClick, setItem], rfl, rfl⟩⟩

/-- Counterexample for C16: the stored value is the markup of a table inside a
paragraph, as the editor autosaves it after `insertTable`; the initial live
content is its re-serialisation, not the stored string. -/
theorem initialise_reserialises :
    tableInParagraph ≠ "" ∧
    (initialise sampleReserialise (some tableInParagraph)).innerHTML
      ≠ tableInParagraph := by
  decide

/-- C16 (amended): initialisation and restore fallback. When the value stored
under `autosavedContent` is absent or the empty string, the placeholder
"<p>Start typing your document here...</p>" is assigned to the live surface,
otherwise the stored string is; the initial live content is the
re-serialisation of the assigned markup, which is that markup itself when it
re-serialises to itself. In every case both stacks start empty and
`lastContent` equals the initial live content. -/
theorem initialise_fallback :
    (∀ r : String → String,
        initialise r none
          = ⟨r "<p>Start typing your document here...</p>", [], [],
             r "<p>Start typing your document here...</p>"⟩ ∧
        initialise r (some "")
          = ⟨r "<p>Start typing your document here...</p>", [], [],
             r "<p>Start typing your document here...</p>"⟩) ∧
    (∀ (r : String → String) (c : String), c ≠ "" →
        initialise r (some c) = ⟨r c, [], [], r c⟩) ∧
    (∀ (r : String → String) (autosavedContent : Option String),
        (initialise r autosavedContent).undoStack = [] ∧
        (initialise r autosavedContent).redoStack = [] ∧
        (initialise r autosavedContent).lastContent
          = (initialise r autosavedContent).innerHTML) ∧
    (∀ r : String → String,
        r "<p>Start typing your document here...</p>"
          = "<p>Start typing your document here...</p>" →
        initialise r none
          = ⟨"<p>Start typing your document here...</p>", [], [],
             "<p>Start typing your document here...</p>"⟩ ∧
        initialise r (some "")
          = ⟨"<p>Start typing your document here...</p>", [], [],
             "<p>Start typing your document here...</p>"⟩) ∧
    (∀ (r : String → String) (c : String), c ≠ "" → r c = c →
        initialise r (some c) = ⟨c, [], [], c⟩) := by
  have hsome : ∀ (r : String → String) (c : String), c ≠ "" →
      initialise r (some c) = ⟨r c, [], [], r c⟩ := by
    intro r c hc
    simp [initialise, hc]
  refine ⟨fun r => ⟨rfl, rfl⟩, hsome, fun r stored => ⟨rfl, rfl, rfl⟩, ?_, ?_⟩
  · intro r hr
    have h1 : initialise r none
        = ⟨r "<p>Start typing your document here...</p>", [], [],
           r "<p>Start typing your document here...</p>"⟩ := rfl
    have h2 : initialise r (some "")
        = ⟨r "<p>Start typing your document here...</p>", [], [],
           r "<p>Start typing your document here...</p>"⟩ := rfl
    rw [h1, h2, hr]
    exact ⟨rfl, rfl⟩
  · intro r c hc hr
    rw [hsome r c hc, hr]

/-- Witness for C16: a stored document that re-serialises to itself is restored
as it was stored, and without a stored value the placeholder is shown. -/
theorem initialise_fallback_witness :
    initialise sampleReserialise (some "<p>Saved</p>")
      = ⟨"<p>Saved</p>", [], [], "<p>Saved</p>"⟩ ∧
    initialise sampleReserialise none
      = ⟨"<p>Start typing your document here...</p>", [], [],
         "<p>Start typing your document here...</p>"⟩ :=
  ⟨initialise_fallback.2.2.2.2 sampleReserialise "<p>Saved</p>" (by decide) (by decide),
   (initialise_fallback.2.2.2.1 sampleReserialise (by decide)).1⟩

/-- C17: combined bound on history size. In every state reached from
initialisation by any sequence of live edits, `saveState`, `undo` and `redo`
calls, `undoStack.length + redoStack.length ≤ 50`, hence `redoStack.length ≤ 50`;
`undo` and `redo` each preserve the sum on every state. All of this holds
whatever the browser's re-serialisation. -/
theorem history_total_le_50 :
    (∀ (r : String → String) (autosavedContent : Option String) (ops : List Op),
        (run r (initialise r autosavedContent) ops).undoStack.length
          + (run r (initialise r autosavedContent) ops).redoStack.length ≤ 50 ∧
        (run r (initialise r autosavedContent) ops).redoStack.length ≤ 50) ∧
    (∀ (r : String → String) (s : EditorState),
        (undo r s).undoStack.length + (undo r s).redoStack.length
          = s.undoStack.length + s.redoStack.length) ∧
    (∀ (r : String → String) (s : EditorState),
        (redo r s).undoStack.length + (redo r s).redoStack.length
          = s.undoStack.length + s.redoStack.length) := by
  refine ⟨?_, undo_total_eq, redo_total_eq⟩
  intro r stored ops
  have h := run_total_le r (initialise r stored) ops (by simp [initialise])
  exact ⟨h, by omega⟩

/-- Counterexample for C18: a table inside a paragraph was captured, then a
later edit. Nothing is uncaptured, yet after `undo` the live content is the
re-serialised markup while `lastContent` is the captured one, and after `undo`
and `redo` the timeline holds the re-serialised markup in place of the captured
one. -/
theorem timeline_not_conserved :
    (run sampleReserialise (initialise sampleReserialise none)
        [Op.edit tableInParagraph, Op.capture, Op.edit "<p>a</p>", Op.capture]).innerHTML
      = (run sampleReserialise (initialise sampleReserialise none)
        [Op.edit tableInParagraph, Op.capture, Op.edit "<p>a</p>",
         Op.capture]).lastContent ∧
    (undo sampleReserialise (run sampleReserialise (initialise sampleReserialise none)
        [Op.edit tableInParagraph, Op.capture, Op.edit "<p>a</p>", Op.capture])).innerHTML
      ≠ (undo sampleReserialise (run sampleReserialise (initialise sampleReserialise none)
        [Op.edit tableInParagraph, Op.capture, Op.edit "<p>a</p>",
         Op.capture])).lastContent ∧
    timeline (run sampleReserialise
        (run sampleReserialise (initialise sampleReserialise none)
          [Op.edit tableInParagraph, Op.capture, Op.edit "<p>a</p>", Op.capture])
        [Op.undo, Op.redo])
      ≠ timeline (run sampleReserialise (initialise sampleReserialise none)
        [Op.edit tableInParagraph, Op.capture, Op.edit "<p>a</p>", Op.capture]) := by
  decide

/-- C18 (amended): the linear timeline is conserved by navigation over markup
that re-serialises to itself. On every state whose live content equals
`lastContent`, one `undo` or one `redo` leaves
`undoStack ++ [lastContent] ++ reverse redoStack` unchanged. When moreover every
entry of that sequence re-serialises to itself, `undo` and `redo` leave the live
content equal to `lastContent`, and every sequence of `undo` and `redo` calls
keeps the sequence and that equality. When `undo` pops an entry while the live
content differs from `lastContent`, the live content takes the place of the old
`lastContent` in the timeline, which is kept on neither stack. -/
theorem timeline_conserved :
    (∀ (r : String → String) (s : EditorState), s.innerHTML = s.lastContent →
        timeline (undo r s) = timeline s ∧ timeline (redo r s) = timeline s) ∧
    (∀ (r : String → String) (s : EditorState), s.innerHTML = s.lastContent →
        (∀ x ∈ timeline s, r x = x) →
        (undo r s).innerHTML = (undo r s).lastContent ∧
        (redo r s).innerHTML = (redo r s).lastContent) ∧
    (∀ (r : String → String) (s : EditorState) (ops : List Op),
        s.innerHTML = s.lastContent → (∀ x ∈ timeline s, r x = x) →
        (∀ op ∈ ops, op = Op.undo ∨ op = Op.redo) →
        timeline (run r s ops) = timeline s ∧
          (run r s ops).innerHTML = (run r s ops).lastContent) ∧
    (∀ (r : String → String) (e : String) (U : List String) (p : String)
        (R : List String) (L : String),
        (undo r ⟨e, U ++ [p], R, L⟩).undoStack = U ∧
        (undo r ⟨e, U ++ [p], R, L⟩).redoStack = R ++ [e] ∧
        timeline (undo r ⟨e, U ++ [p], R, L⟩) = (U ++ [p]) ++ [e] ++ R.reverse) := by
  refine ⟨fun r s h => ⟨(timeline_undo r s h).1, (timeline_redo r s h).1⟩,
    fun r s h hrt => ⟨(timeline_undo r s h).2 hrt, (timeline_redo r s h).2 hrt⟩,
    fun r s ops h hrt hops => timeline_run r ops s h hrt hops, ?_⟩
  intro r e U p R L
  rw [undo_snoc]
  refine ⟨rfl, rfl, ?_⟩
  simp [timeline]

/-- Witness for C18: a session in the middle of its history, of markup that
re-serialises to itself, walked back, forth and back again. -/
theorem timeline_conserved_witness :
    timeline (undo sampleReserialise
        ⟨"<p>AB</p>", ["<p>A</p>"], ["<p>ABC</p>"], "<p>AB</p>"⟩)
      = ["<p>A</p>", "<p>AB</p>", "<p>ABC</p>"] ∧
    (undo sampleReserialise
        ⟨"<p>AB</p>", ["<p>A</p>"], ["<p>ABC</p>"], "<p>AB</p>"⟩).innerHTML
      = (undo sampleReserialise
        ⟨"<p>AB</p>", ["<p>A</p>"], ["<p>ABC</p>"], "<p>AB</p>"⟩).lastContent ∧
    timeline (run sampleReserialise
        ⟨"<p>AB</p>", ["<p>A</p>"], ["<p>ABC</p>"], "<p>AB</p>"⟩
        [Op.undo, Op.redo, Op.redo, Op.undo, Op.undo])
      = ["<p>A</p>", "<p>AB</p>", "<p>ABC</p>"] :=
  ⟨(timeline_conserved.1 sampleReserialise
      ⟨"<p>AB</p>", ["<p>A</p>"], ["<p>ABC</p>"], "<p>AB</p>"⟩ rfl).1,
   (timeline_conserved.2.1 sampleReserialise
      ⟨"<p>AB</p>", ["<p>A</p>"], ["<p>ABC</p>"], "<p>AB</p>"⟩ rfl (by decide)).1,
   (timeline_conserved.2.2.1 sampleReserialise
      ⟨"<p>AB</p>", ["<p>A</p>"], ["<p>ABC</p>"], "<p>AB</p>"⟩
      [Op.undo, Op.redo, Op.redo, Op.undo, Op.undo] rfl (by decide) (by decide)).1⟩

/-- C19: `insertTable` builds a table of the requested size. For `rows ≥ 1` and
`cols ≥ 1` the table has `rows` rows in total and every row has `cols` cells;
with a header the first row is the header row "Header 1" .. "Header cols",
followed by `rows - 1` body rows; without it there are `rows` body rows and no
header; every body cell holds the text "Cell". The click handler builds exactly
this table. -/
theorem insertTable_size (rows cols : Int) (includeHeader : Bool)
    (hr : 1 ≤ rows) (hc : 1 ≤ cols) :
    ((insertTable rows cols includeHeader).allRows.length : Int) = rows ∧
    (∀ r ∈ (insertTable rows cols includeHeader).allRows, (r.length : Int) = cols) ∧
    (includeHeader = true →
      (∃ headerRow, (insertTable rows cols includeHeader).thead = some headerRow ∧
        (insertTable rows cols includeHeader).allRows.head? = some headerRow ∧
        ∀ i : Nat, (i : Int) < cols →
          headerRow[i]? = some ("Header " ++ toString (i + 1))) ∧
      ((insertTable rows cols includeHeader).tbody.length : Int) = rows - 1) ∧
    (includeHeader = false →
      (insertTable rows cols includeHeader).thead = none ∧
      ((insertTable rows cols includeHeader).tbody.length : Int) = rows) ∧
    (∀ r ∈ (insertTable rows cols includeHeader).tbody, ∀ c ∈ r, c = "Cell") ∧
    insertTableBtnClick (some rows) (some cols) includeHeader
      = some (insertTable rows cols includeHeader) := by
  have hcn : ((cols.toNat : Nat) : Int) = cols := Int.toNat_of_nonneg (by omega)
  have hrn : ((rows.toNat : Nat) : Int) = rows := Int.toNat_of_nonneg (by omega)
  have hrn1 : (((rows - 1).toNat : Nat) : Int) = rows - 1 :=
    Int.toNat_of_nonneg (by omega)
  cases includeHeader with
  | true =>
    refine ⟨?_, ?_, ?_, ?_, ?_, ?_⟩
    · simp [insertTable, Table.allRows]; omega
    · intro r hr
      simp only [insertTable, Table.allRows, if_true, Option.toList, List.singleton_append,
        List.mem_cons, List.mem_map, List.mem_range] at hr
      rcases hr with rfl | ⟨_, _, rfl⟩
      · simpa using hcn
      · simpa using hcn
    · intro _
      refine ⟨⟨_, rfl, rfl, ?_⟩, ?_⟩
      · intro i hi
        have hi2 : i < cols.toNat := by omega
        simp [hi2]
      · simpa [insertTable] using hrn1
    · intro h; exact absurd h (by decide)
    · intro r hr c hc
      simp only [insertTable, if_true, List.mem_map, List.mem_range] at hr
      rcases hr with ⟨_, _, rfl⟩
      simp only [List.mem_map, List.mem_range] at hc
      rcases hc with ⟨_, _, rfl⟩
      rfl
    · have h0 : rows > 0 ∧ cols > 0 := ⟨by omega, by omega⟩
      simp [insertTableBtnClick, h0]
  | false =>
    refine ⟨?_, ?_, ?_, ?_, ?_, ?_⟩
    · simpa [insertTable, Table.allRows] using hrn
    · intro r hr
      simp only [insertTable, Table.allRows, Bool.false_eq_true, if_false, Option.toList,
        List.nil_append, List.mem_map, List.mem_range] at hr
      rcases hr with ⟨_, _, rfl⟩
      simpa using hcn
    · intro h; exact absurd h (by decide)
    · intro _
      exact ⟨rfl, by simpa [insertTable] using hrn⟩
    · intro r hr c hc
      simp only [insertTable, Bool.false_eq_true, if_false, List.mem_map,
        List.mem_range] at hr
      rcases hr with ⟨_, _, rfl⟩
      simp only [List.mem_map, List.mem_range] at hc
      rcases hc with ⟨_, _, rfl⟩
      rfl
    · have h0 : rows > 0 ∧ cols > 0 := ⟨by omega, by omega⟩
      simp [insertTableBtnClick, h0]

/-- Witness for C19: a table of 3 rows and 2 columns, with and without a
header. -/
theorem insertTable_size_witness :
    ((insertTable 3 2 true).allRows.length : Int) = 3 ∧
    ((insertTable 3 2 true).tbody.length : Int) = 3 - 1 ∧
    ((insertTable 3 2 false).tbody.length : Int) = 3 ∧
    insertTable 3 2 true
      = ⟨some ["Header 1", "Header 2"], [["Cell", "Cell"], ["Cell", "Cell"]]⟩ ∧
    insertTable 3 2 false
      = ⟨none, [["Cell", "Cell"], ["Cell", "Cell"], ["Cell", "Cell"]]⟩ :=
  ⟨(insertTable_size 3 2 true (by decide) (by decide)).1,
   ((insertTable_size 3 2 true (by decide) (by decide)).2.2.1 rfl).2,
   ((insertTable_size 3 2 false (by decide) (by decide)).2.2.2.1 rfl).2,
   by decide, by decide⟩

/-- C20: `updateCounts` reports correct counts for every text. The word count is
0 when the text is empty or consists only of white space, and in every case
equals the number of maximal runs of non-white-space code units of the text;
the character count is the length of the untrimmed text. -/
theorem updateCounts_correct (text : List Nat) :
    ((∀ c ∈ text, isWhiteSpace c = true) → (updateCounts text).words = 0) ∧
    (updateCounts text).words = nonWhiteSpaceRuns text ∧
    (updateCounts text).chars = text.length ∧
    (updateCounts text).wordCountText = "Words: " ++ toString (nonWhiteSpaceRuns text) ∧
    (updateCounts text).charCountText = "Characters: " ++ toString text.length := by
  have hw := updateCounts_words text
  have htext : (if text = [] then [] else text) = text := by
    by_cases h : text = [] <;> simp [h]
  have hc : (updateCounts text).chars = text.length :=
    congrArg List.length htext
  refine ⟨?_, hw, hc, ?_, ?_⟩
  · intro h
    rw [hw]
    exact countRuns_of_all_space text h true
  · rw [← hw]; rfl
  · rw [← hc]; rfl

/-- Witness for C20: a text of white space only has no words, and a text with
uneven spacing and a line break (code unit 10) is counted by its runs. -/
theorem updateCounts_correct_witness :
    (updateCounts [32, 32, 10, 32]).words = 0 ∧
    (updateCounts (codeUnits " hello   big" ++ [10] ++ codeUnits "world ")).words = 3 ∧
    (updateCounts (codeUnits " hello   big" ++ [10] ++ codeUnits "world ")).chars = 19 :=
  ⟨(updateCounts_correct [32, 32, 10, 32]).1 (by decide),
   (updateCounts_correct
      (codeUnits " hello   big" ++ [10] ++ codeUnits "world ")).2.1.trans (by decide),
   (updateCounts_correct
      (codeUnits " hello   big" ++ [10] ++ codeUnits "world ")).2.2.1.trans (by decide)⟩

end DocumentEditor
